import Mathlib

set_option maxHeartbeats 1000000

/-!
Verification development for the spreadsheet persistence core of
`update_weather.py` and its remote-spreadsheet variant
`update_weather_google_sheet.py`.

The Python code is shallowly embedded: Python scalar cell values become the
inductive type `Value`; rows are lists of values; every function of the
persistence core is translated into an executable Lean definition carrying the
source function's name where possible.  Python floats appearing in this
program are always produced by `round(x, 1)` and are therefore integral
multiples of one tenth; they are embedded as an integer number of tenths.
-/

/-- A Python scalar cell value: text, int, float (an integral number of
tenths, see the module comment), bool, or None. -/
inductive Value where
  | str (s : String)
  | int (n : Int)
  | float (tenths : Int)
  | bool (b : Bool)
  | none
  deriving DecidableEq, Repr

/-- A spreadsheet row: an ordered list of cell values. -/
abbrev Row := List Value

/-- Python `==` on the embedded scalar values: numeric types compare by value
(`5 == 5.0`, `True == 1`), `None` equals only itself, strings compare by
content, and cross-kind comparisons are `False`. -/
def pyEq : Value → Value → Bool
  | Value.str a, Value.str b => a = b
  | Value.int a, Value.int b => a = b
  | Value.int a, Value.float b => a * 10 = b
  | Value.float a, Value.int b => a = b * 10
  | Value.float a, Value.float b => a = b
  | Value.bool a, Value.bool b => a = b
  | Value.bool a, Value.int b => (if a then (1 : Int) else 0) = b
  | Value.int a, Value.bool b => a = (if b then (1 : Int) else 0)
  | Value.bool a, Value.float b => (if a then (10 : Int) else 0) = b
  | Value.float a, Value.bool b => a = (if b then (10 : Int) else 0)
  | Value.none, Value.none => true
  | _, _ => false

/-- Python truthiness of a cell value (`bool(v)`). -/
def pyTruthy : Value → Bool
  | Value.str s => s ≠ ""
  | Value.int n => n ≠ 0
  | Value.float t => t ≠ 0
  | Value.bool b => b
  | Value.none => false

/-- The test `cell in ("", None)` used throughout the source: true exactly for
the empty string and `None`. -/
def isEmptyCell : Value → Bool
  | Value.str s => s = ""
  | Value.none => true
  | _ => false

/-- `_is_empty_row`: every cell is empty text or `None` (an empty list of
cells also counts, as `all` of an empty iterable is true). -/
def isEmptyRow (row : Row) : Bool := row.all isEmptyCell

/-- Decimal digit character, `chr(48 + d)` for `d < 10`. -/
def digitChar (d : Nat) : Char := ("0123456789".data).getD d '0'

/-- Upper-case letter character, `chr(65 + r)` for `r < 26`. -/
def letterChar (r : Nat) : Char := ("ABCDEFGHIJKLMNOPQRSTUVWXYZ".data).getD r 'A'

/-- The test `"0" <= ch <= "9"` by code point. -/
def isDigitChar (c : Char) : Bool := 48 ≤ c.toNat ∧ c.toNat ≤ 57

/-- The test `"A" <= ch <= "Z"` by code point (as in `_column_index`). -/
def isUpperChar (c : Char) : Bool := 65 ≤ c.toNat ∧ c.toNat ≤ 90

/-- Fuel-indexed decimal rendering of a natural number, most significant digit
first.  `fuel` only bounds the recursion depth; any `fuel ≥ n` (with `n ≥ 1`
steps available, see `natToString`) yields the digits of `n`. -/
def natToStringAux : Nat → Nat → List Char
  | 0, _ => []
  | fuel + 1, n => if n < 10 then [digitChar n] else natToStringAux fuel (n / 10) ++ [digitChar (n % 10)]

/-- Python `str(n)` for a natural number. -/
def natToString (n : Nat) : String := String.mk (natToStringAux (n + 1) n)

/-- Python `str(i)` for an int (minus sign followed by the digits). -/
def intToString (i : Int) : String :=
  if i < 0 then "-" ++ natToString i.natAbs else natToString i.natAbs

/-- Python `"{:.1f}".format(v)` for a float `v` that is an integral number of
tenths `t` (the only floats this program produces): sign, the integer part,
a dot, and the single tenths digit. -/
def formatFloatTenths (t : Int) : String :=
  (if t < 0 then "-" else "") ++ natToString (t.natAbs / 10) ++ "." ++ natToString (t.natAbs % 10)

/-- Python `int(v)` for a float `v` of `t` tenths with `t` a multiple of ten
(truncation towards zero, exact here). -/
def intOfTenths (t : Int) : Int :=
  if t < 0 then -((t.natAbs / 10 : Nat) : Int) else ((t.natAbs / 10 : Nat) : Int)

/-- Python `str(value)` on the embedded scalar values. -/
def pyStr : Value → String
  | Value.str s => s
  | Value.int n => intToString n
  | Value.float t => formatFloatTenths t
  | Value.bool b => if b then "True" else "False"
  | Value.none => "None"

/-- ASCII whitespace recognised by `str.strip()`. -/
def isSpaceChar (c : Char) : Bool :=
  c.toNat = 32 ∨ c.toNat = 9 ∨ c.toNat = 10 ∨ c.toNat = 13 ∨ c.toNat = 11 ∨ c.toNat = 12

/-- ASCII lowering of one character, as done by `str.lower()` on the ASCII
header names this program compares. -/
def pyCharLower (c : Char) : Char :=
  if 65 ≤ c.toNat ∧ c.toNat ≤ 90 then Char.ofNat (c.toNat + 32) else c

/-- Python `s.strip().lower()` (ASCII model, sufficient for the header
names compared by the source). -/
def pyStripLower (s : String) : String :=
  String.mk ((((s.data.dropWhile isSpaceChar).reverse.dropWhile isSpaceChar).reverse).map pyCharLower)

/-- `_column_letter`, fuel-indexed body: repeatedly `divmod(index - 1, 26)`,
prepending the letter of each remainder.  The fuel is decremented once per
loop iteration; `index` itself is always enough fuel. -/
def columnLetterAux : Nat → Nat → List Char
  | 0, _ => []
  | fuel + 1, index =>
    if index = 0 then []
    else columnLetterAux fuel ((index - 1) / 26) ++ [letterChar ((index - 1) % 26)]

/-- `_column_letter(index)`: bijective base-26 column label (1 → "A"). -/
def _column_letter (index : Nat) : String := String.mk (columnLetterAux index index)

/-- Loop body of `_column_index`: fold over characters, stopping at the first
character outside `A`..`Z`. -/
def colIdxGo : List Char → Nat → Nat
  | [], acc => acc
  | c :: cs, acc => if isUpperChar c then colIdxGo cs (acc * 26 + (c.toNat - 65 + 1)) else acc

/-- `_column_index(column_letters)`: value of the leading upper-case letters
in bijective base 26 (0 when there are none). -/
def _column_index (s : String) : Nat := colIdxGo s.data 0

/-- Digit value of a digit character (`ord(ch) - 48`). -/
def digitVal (c : Char) : Nat := c.toNat - 48

/-- Accumulating decimal parser; fails on the first non-digit. -/
def parseDigitsAux : List Char → Nat → Option Nat
  | [], acc => some acc
  | c :: cs, acc => if isDigitChar c then parseDigitsAux cs (acc * 10 + digitVal c) else none

/-- Parse a non-empty all-digit character list as a natural number. -/
def parseDigits (l : List Char) : Option Nat :=
  if l = [] then none else parseDigitsAux l 0

/-- Parse an unsigned decimal literal with at most one fractional digit into a
number of tenths.  This is the grammar of every numeric payload this program
writes (`_format_number` emits either an integer literal or one fractional
digit); it models `float(text)` on exactly those payloads. -/
def parseUnsignedTenths (cs : List Char) : Option Nat :=
  match parseDigits (cs.takeWhile isDigitChar) with
  | Option.none => Option.none
  | some d =>
    match cs.dropWhile isDigitChar with
    | [] => some (d * 10)
    | ['.'] => some (d * 10)
    | ['.', f] => if isDigitChar f then some (d * 10 + digitVal f) else Option.none
    | _ => Option.none

/-- Signed variant of `parseUnsignedTenths`, modelling `float(text)` on the
decimal payloads the writer emits (an optional leading minus sign). -/
def parseFloatTenths (cs : List Char) : Option Int :=
  if cs.head? = some '-' then (parseUnsignedTenths cs.tail).map (fun t => -(Int.ofNat t))
  else (parseUnsignedTenths cs).map (fun t => Int.ofNat t)

/-- `_parse_cell_number(text)`: try `float(text)`; on failure return the text
itself; an integral value (`value.is_integer()`) becomes `int(value)`,
otherwise the float is kept. -/
def _parse_cell_number (text : String) : Value :=
  match parseFloatTenths text.data with
  | Option.none => Value.str text
  | some t => if t.natAbs % 10 = 0 then Value.int (intOfTenths t) else Value.float t

/-- `_format_number(value)`: floats with exactly one fractional digit
(by `"{:.1f}"`), everything else via `str(value)`.  Note the branch is on the
runtime type `float`, not on whether the value is integral. -/
def _format_number : Value → String
  | Value.float t => formatFloatTenths t
  | v => pyStr v

example : _format_number (Value.float 50) = "5.0" := by decide
example : _parse_cell_number "5.0" = Value.int 5 := by decide
example : _format_number (Value.int 5) = "5" := by decide
example : _parse_cell_number "3.1" = Value.float 31 := by decide
example : _parse_cell_number "-3.1" = Value.float (-31) := by decide
example : _column_letter 27 = "AA" := by decide
example : _column_index "C12" = 3 := by decide
example : _column_index (_column_letter 16384) = 16384 := by decide

/-- `xml.sax.saxutils.escape` on one character: `&`, `<`, `>` become their
entities. -/
def xmlEscapeChar (c : Char) : List Char :=
  if c = '&' then "&amp;".data
  else if c = '<' then "&lt;".data
  else if c = '>' then "&gt;".data
  else [c]

/-- `xml.sax.saxutils.escape(s)`. -/
def xmlEscape (s : String) : String := String.mk (s.data.flatMap xmlEscapeChar)

/-- Entity resolution performed by the XML parser when it returns the text of
an element (the inverse of `xmlEscape` on escaped text). -/
def xmlUnescapeAux : List Char → List Char
  | [] => []
  | '&' :: 'a' :: 'm' :: 'p' :: ';' :: rest => '&' :: xmlUnescapeAux rest
  | '&' :: 'l' :: 't' :: ';' :: rest => '<' :: xmlUnescapeAux rest
  | '&' :: 'g' :: 't' :: ';' :: rest => '>' :: xmlUnescapeAux rest
  | c :: rest => c :: xmlUnescapeAux rest

/-- String version of `xmlUnescapeAux`. -/
def xmlUnescape (s : String) : String := String.mk (xmlUnescapeAux s.data)

/-- One `<c>` element of a worksheet, as the XML parser presents it: the `r`
attribute (cell address), the cell type tag, and the raw character data of its
payload.  `blank` is a cell with neither type nor value (`<c r=".." />`),
`inlineStr` is `t="inlineStr"` inline text, `numeric` an untyped `<v>`
payload, `sharedStr` a `t="s"` shared-string index, `strCell` a `t="str"`
formula-string payload. -/
inductive CellRep where
  | blank (ref : String)
  | inlineStr (ref : String) (text : String)
  | numeric (ref : String) (payload : String)
  | sharedStr (ref : String) (payload : String)
  | strCell (ref : String) (payload : String)
  deriving DecidableEq, Repr

/-- The `r` attribute of a cell element. -/
def cellRef : CellRep → String
  | CellRep.blank ref => ref
  | CellRep.inlineStr ref _ => ref
  | CellRep.numeric ref _ => ref
  | CellRep.sharedStr ref _ => ref
  | CellRep.strCell ref _ => ref

/-- `_cell_xml(value, row_idx, col_idx)` at the element level: empty text and
`None` produce a bare cell, booleans inline `TRUE`/`FALSE` text, numbers a
`_format_number` payload, and text an escaped inline string. -/
def _cell_xml (value : Value) (rowIdx colIdx : Nat) : CellRep :=
  let ref := _column_letter colIdx ++ natToString rowIdx
  match value with
  | Value.none => CellRep.blank ref
  | Value.bool b => CellRep.inlineStr ref (if b then "TRUE" else "FALSE")
  | Value.int n => CellRep.numeric ref (_format_number (Value.int n))
  | Value.float t => CellRep.numeric ref (_format_number (Value.float t))
  | Value.str s => if s = "" then CellRep.blank ref else CellRep.inlineStr ref (xmlEscape s)

/-- The cell elements `_write_xlsx` emits for one row (columns numbered from
1). -/
def writeRowCellsFrom (rowIdx : Nat) : Nat → Row → List CellRep
  | _, [] => []
  | colIdx, v :: rest => _cell_xml v rowIdx colIdx :: writeRowCellsFrom rowIdx (colIdx + 1) rest

/-- The rows of cell elements `_write_xlsx` emits (rows numbered from 1,
header first). -/
def writeSheetFrom : Nat → List Row → List (List CellRep)
  | _, [] => []
  | rowIdx, r :: rest => writeRowCellsFrom rowIdx 1 r :: writeSheetFrom (rowIdx + 1) rest

/-- The full worksheet cell structure written for `headers` and `rows`. -/
def writeSheetCells (headers : Row) (rows : List Row) : List (List CellRep) :=
  writeSheetFrom 1 (headers :: rows)

/-- Exact XML text of one cell element, as formatted by `_cell_xml`. -/
def renderCellXml : CellRep → String
  | CellRep.blank ref => "<c r=\"" ++ ref ++ "\" />"
  | CellRep.inlineStr ref text =>
      "<c r=\"" ++ ref ++ "\" t=\"inlineStr\"><is><t>" ++ text ++ "</t></is></c>"
  | CellRep.numeric ref payload => "<c r=\"" ++ ref ++ "\"><v>" ++ payload ++ "</v></c>"
  | CellRep.sharedStr ref payload =>
      "<c r=\"" ++ ref ++ "\" t=\"s\"><v>" ++ payload ++ "</v></c>"
  | CellRep.strCell ref payload =>
      "<c r=\"" ++ ref ++ "\" t=\"str\"><v>" ++ payload ++ "</v></c>"

/-- The `sheet_lines` entries for one row of `_write_xlsx`. -/
def sheetRowLines (rowIdx : Nat) (row : Row) : List String :=
  ("    <row r=\"" ++ natToString rowIdx ++ "\">")
    :: (writeRowCellsFrom rowIdx 1 row).map (fun c => "      " ++ renderCellXml c)
    ++ ["    </row>"]

/-- The `sheet_lines` entries for all rows starting at a given row number. -/
def sheetLinesFrom : Nat → List Row → List String
  | _, [] => []
  | rowIdx, r :: rest => sheetRowLines rowIdx r ++ sheetLinesFrom (rowIdx + 1) rest

/-- `sheet_xml` of `_write_xlsx`: the joined worksheet part text. -/
def sheetXmlString (headers : Row) (rows : List Row) : String :=
  String.intercalate "\n"
    (["<?xml version=\"1.0\" encoding=\"UTF-8\"?>",
      "<worksheet xmlns=\"http://schemas.openxmlformats.org/spreadsheetml/2006/main\">",
      "  <sheetData>"]
     ++ sheetLinesFrom 1 (headers :: rows)
     ++ ["  </sheetData>", "</worksheet>"])

/-- The fixed `[Content_Types].xml` part written by `_write_xlsx`. -/
def contentTypesXml : String :=
  "<?xml version=\"1.0\" encoding=\"UTF-8\"?>\n<Types xmlns=\"http://schemas.openxmlformats.org/package/2006/content-types\">\n  <Default Extension=\"rels\" ContentType=\"application/vnd.openxmlformats-package.relationships+xml\"/>\n  <Default Extension=\"xml\" ContentType=\"application/xml\"/>\n  <Override PartName=\"/xl/workbook.xml\" ContentType=\"application/vnd.openxmlformats-officedocument.spreadsheetml.sheet.main+xml\"/>\n  <Override PartName=\"/xl/worksheets/sheet1.xml\" ContentType=\"application/vnd.openxmlformats-officedocument.spreadsheetml.worksheet+xml\"/>\n  <Override PartName=\"/xl/styles.xml\" ContentType=\"application/vnd.openxmlformats-officedocument.spreadsheetml.styles+xml\"/>\n</Types>\n"

/-- The fixed `_rels/.rels` part written by `_write_xlsx`. -/
def relsXml : String :=
  "<?xml version=\"1.0\" encoding=\"UTF-8\"?>\n<Relationships xmlns=\"http://schemas.openxmlformats.org/package/2006/relationships\">\n  <Relationship Id=\"rId1\" Type=\"http://schemas.openxmlformats.org/officeDocument/2006/relationships/officeDocument\" Target=\"xl/workbook.xml\"/>\n</Relationships>\n"

/-- The fixed `xl/workbook.xml` part written by `_write_xlsx`. -/
def workbookXml : String :=
  "<?xml version=\"1.0\" encoding=\"UTF-8\"?>\n<workbook xmlns=\"http://schemas.openxmlformats.org/spreadsheetml/2006/main\"\n          xmlns:r=\"http://schemas.openxmlformats.org/officeDocument/2006/relationships\">\n  <sheets>\n    <sheet name=\"Results\" sheetId=\"1\" r:id=\"rId1\"/>\n  </sheets>\n</workbook>\n"

/-- The fixed `xl/_rels/workbook.xml.rels` part written by `_write_xlsx`. -/
def workbookRelsXml : String :=
  "<?xml version=\"1.0\" encoding=\"UTF-8\"?>\n<Relationships xmlns=\"http://schemas.openxmlformats.org/package/2006/relationships\">\n  <Relationship Id=\"rId1\" Type=\"http://schemas.openxmlformats.org/officeDocument/2006/relationships/worksheet\" Target=\"worksheets/sheet1.xml\"/>\n  <Relationship Id=\"rId2\" Type=\"http://schemas.openxmlformats.org/officeDocument/2006/relationships/styles\" Target=\"styles.xml\"/>\n</Relationships>\n"

/-- The fixed `xl/styles.xml` part written by `_write_xlsx`. -/
def stylesXml : String :=
  "<?xml version=\"1.0\" encoding=\"UTF-8\"?>\n<styleSheet xmlns=\"http://schemas.openxmlformats.org/spreadsheetml/2006/main\">\n  <fonts count=\"1\">\n    <font>\n      <sz val=\"11\"/>\n      <color theme=\"1\"/>\n      <name val=\"Calibri\"/>\n      <family val=\"2\"/>\n      <scheme val=\"minor\"/>\n    </font>\n  </fonts>\n  <fills count=\"2\">\n    <fill><patternFill patternType=\"none\"/></fill>\n    <fill><patternFill patternType=\"gray125\"/></fill>\n  </fills>\n  <borders count=\"1\">\n    <border><left/><right/><top/><bottom/><diagonal/></border>\n  </borders>\n  <cellStyleXfs count=\"1\">\n    <xf numFmtId=\"0\" fontId=\"0\" fillId=\"0\" borderId=\"0\"/>\n  </cellStyleXfs>\n  <cellXfs count=\"1\">\n    <xf numFmtId=\"0\" fontId=\"0\" fillId=\"0\" borderId=\"0\" xfId=\"0\"/>\n  </cellXfs>\n  <cellStyles count=\"1\">\n    <cellStyle name=\"Normal\" xfId=\"0\" builtinId=\"0\"/>\n  </cellStyles>\n</styleSheet>\n"

/-- `_write_xlsx(headers, rows, path)` as the container artifact it produces:
the six archive members in order, each as (member name, member data, member
date-time stamp).  `zipfile.ZipFile.writestr`, when given a member name
rather than a `ZipInfo`, stamps the member header with the current local
time (`ZipInfo(filename=..., date_time=time.localtime(time.time())[:6])`), so
the clock reading `now` is an input of the artifact. -/
def _write_xlsx (headers : Row) (rows : List Row) (now : Nat) : List (String × String × Nat) :=
  [("[Content_Types].xml", contentTypesXml, now),
   ("_rels/.rels", relsXml, now),
   ("xl/workbook.xml", workbookXml, now),
   ("xl/_rels/workbook.xml.rels", workbookRelsXml, now),
   ("xl/worksheets/sheet1.xml", sheetXmlString headers rows, now),
   ("xl/styles.xml", stylesXml, now)]

/-- Python `int(text)` on the decimal payload of a shared-string index. -/
def parsePyInt (s : String) : Option Int :=
  match s.data with
  | '-' :: rest => (parseDigits rest).map (fun n => -(n : Int))
  | l => (parseDigits l).map (fun n => (n : Int))

/-- `_get_cell_value(cell, shared_strings, ns)`: inline strings return their
(unescaped) text; `t="s"` cells index the shared-string table with an
out-of-range or unparsable index decoding to empty text; a missing value node
decodes to empty text; `t="str"` cells return their text; any other value
payload goes through `_parse_cell_number`. -/
def _get_cell_value (cell : CellRep) (sharedStrings : List String) : Value :=
  match cell with
  | CellRep.inlineStr _ text => Value.str (xmlUnescape text)
  | CellRep.sharedStr _ payload =>
    match parsePyInt payload with
    | Option.none => Value.str ""
    | some i =>
      if 0 ≤ i ∧ i < (sharedStrings.length : Int) then Value.str (sharedStrings.getD i.toNat "")
      else Value.str ""
  | CellRep.blank _ => Value.str ""
  | CellRep.strCell _ payload => Value.str (xmlUnescape payload)
  | CellRep.numeric _ payload => _parse_cell_number payload

/-- The leading run of upper-case letters of a cell address, i.e. the match of
the regular expression `([A-Z]+)` anchored at the start (empty when the first
character is not a letter, in which case the reader skips the cell). -/
def leadingLetters : List Char → List Char
  | [] => []
  | c :: cs => if isUpperChar c then c :: leadingLetters cs else []

/-- Per-cell step of the row loop in `_read_xlsx_rows`: derive the column
from the address, back-fill the row with empty text up to that column, and
store the decoded value there.  Cells with no leading letters or column 0 are
skipped. -/
def applyCell (sharedStrings : List String) (rowValues : List Value) (cell : CellRep) : List Value :=
  let letters := leadingLetters (cellRef cell).data
  if letters = [] then rowValues
  else
    let colIndex := colIdxGo letters 0
    if colIndex = 0 then rowValues
    else
      let filled :=
        if rowValues.length < colIndex then
          rowValues ++ List.replicate (colIndex - rowValues.length) (Value.str "")
        else rowValues
      filled.set (colIndex - 1) (_get_cell_value cell sharedStrings)

/-- The row-decoding loop of `_read_xlsx_rows`, applied to the worksheet's
cell elements (row elements in document order): each row element folds its
cells into a value list. -/
def readSheetCells (sheet : List (List CellRep)) (sharedStrings : List String) : List Row :=
  sheet.map (fun cells => cells.foldl (applyCell sharedStrings) [])

example :
    readSheetCells (writeSheetCells [Value.str "h"] [[Value.bool true], [Value.float 50]]) []
      = [[Value.str "h"], [Value.str "TRUE"], [Value.int 5]] := by decide

example :
    readSheetCells (writeSheetCells [Value.str "a&b"] [[Value.none, Value.str "x", Value.int (-3)]]) []
      = [[Value.str "a&b"], [Value.str "", Value.str "x", Value.int (-3)]] := by decide

/-- The fixed header names of `main` (both variants use the same list). -/
def headers : List String :=
  ["date", "concelho", "t_min_c", "t_max_c",
   "wind_max_kmh", "wind_max_dir", "wind_second_max_kmh", "wind_second_max_dir"]

/-- The header row as cell values. -/
def headersRow : Row := headers.map Value.str

/-- `empty_row = [""] * len(headers)`: the blank separator row. -/
def emptyRow8 : Row := List.replicate 8 (Value.str "")

/-- `_pad_row(row, size)`: extend a short row with empty text on the right,
then truncate to exactly `size` cells. -/
def _pad_row (row : Row) (size : Nat) : Row :=
  (if row.length < size then row ++ List.replicate (size - row.length) (Value.str "") else row).take size

/-- `_is_header_row(row, headers)`: a non-empty row whose first
`len(headers)` cells, stringified, stripped and lowered, equal the stripped,
lowered header names. -/
def _is_header_row (row : Row) (hs : List String) : Bool :=
  if row = [] then false
  else (row.take hs.length).map (fun v => pyStripLower (pyStr v)) = hs.map pyStripLower

/-- `header_norm.index("date")` of `_normalize_existing_rows`: the position of
the first cell of the first row whose stringified, stripped, lowered text is
`"date"` (`none` when there is no first row or no such cell). -/
def headerDateIndex : List Row → Option Nat
  | [] => Option.none
  | first :: _ =>
    (first.map (fun v => pyStripLower (pyStr v))).findIdx? (fun s => s = "date")

/-- `_normalize_existing_rows(rows, headers)`: if the `"date"` header sits at
a non-zero offset and every cell before that offset is empty in every row,
left-truncate all rows to start at the offset; in every other case (no rows,
no `"date"` header, offset zero, or some non-empty pre-offset cell) return
the rows unchanged.  The `headers` parameter is accepted but, as in the
source, never used.  The source's early-return double loop is rendered as
`any`. -/
def _normalize_existing_rows (rows : List Row) (_hs : List String) : List Row :=
  match headerDateIndex rows with
  | Option.none => rows
  | some dateIndex =>
    if dateIndex = 0 then rows
    else if rows.any (fun row => (row.take dateIndex).any (fun cell => !isEmptyCell cell)) then rows
    else rows.map (fun row => row.drop dateIndex)

/-- The loop state step of `_split_day_blocks`: `rows` still to process, the
`blocks` accumulated so far, the open block's rows and its date key
(`Value.none` both for Python `None` and for a date cell holding `None`,
which are the same object in the source). -/
def splitGo : List Row → List (Value × List Row) → List Row → Value → List (Value × List Row)
  | [], blocks, currentRows, currentDate =>
    if currentRows = [] then blocks else blocks ++ [(currentDate, currentRows)]
  | row :: rest, blocks, currentRows, currentDate =>
    if isEmptyRow row then
      if currentRows = [] then splitGo rest blocks currentRows currentDate
      else splitGo rest (blocks ++ [(currentDate, currentRows)]) [] Value.none
    else
      let rowDate := row.headD (Value.str "")
      if isEmptyCell rowDate then
        let newDate := if currentDate = Value.none then rowDate else currentDate
        splitGo rest blocks (currentRows ++ [row]) newDate
      else
        if currentRows ≠ [] ∧ isEmptyCell currentDate = false ∧ pyEq rowDate currentDate = false then
          splitGo rest (blocks ++ [(currentDate, currentRows)]) [row] rowDate
        else
          splitGo rest blocks (currentRows ++ [row]) rowDate

/-- `_split_day_blocks(rows)`: partition data rows into (date key, rows)
blocks; blank rows are pure separators, a non-empty date key flushes the open
block only when that block's own key is non-empty and different. -/
def _split_day_blocks (rows : List Row) : List (Value × List Row) :=
  splitGo rows [] [] Value.none

/-- `_ensure_block_date(rows, date_value)`: with an empty key the rows pass
through unchanged; otherwise every non-empty row gets the key forced into its
first cell and empty-list rows are dropped. -/
def _ensure_block_date (rows : List Row) (dateValue : Value) : List Row :=
  if isEmptyCell dateValue then rows
  else rows.filterMap (fun row =>
    match row with
    | [] => Option.none
    | _ :: tail => some (dateValue :: tail))

/-- Python `date_value in block_map` on the association-list model of the
dict (keys are unique up to `pyEq`, insertion order kept). -/
def containsKey (m : List (Value × List Row)) (k : Value) : Bool :=
  m.any (fun p => pyEq p.1 k)

/-- Python `block_map.get(date_value, [])`-style lookup (first `pyEq`
match). -/
def lookupKey : List (Value × List Row) → Value → Option (List Row)
  | [], _ => Option.none
  | p :: rest, k => if pyEq p.1 k then some p.2 else lookupKey rest k

/-- Python `block_map[run_date] = data_rows` on an existing key: the stored
key object is kept, only the value is replaced. -/
def setKey : List (Value × List Row) → Value → List Row → List (Value × List Row)
  | [], _, _ => []
  | p :: rest, k, v => if pyEq p.1 k then (p.1, v) :: rest else p :: setKey rest k v

/-- The `ordered_dates` / `block_map` construction of `main` as a single
association list: keep the first block of each distinct date key, in
first-seen order, dropping later duplicates. -/
def dedupFold : List (Value × List Row) → List (Value × List Row) → List (Value × List Row)
  | [], acc => acc
  | b :: rest, acc =>
    if containsKey acc b.1 then dedupFold rest acc else dedupFold rest (acc ++ [b])

/-- Replace-in-place when the key is present, append otherwise: the
`run_date` insertion step of `main`. -/
def upsertKeyed (m : List (Value × List Row)) (k : Value) (rows : List Row) :
    List (Value × List Row) :=
  if containsKey m k then setKey m k rows else m ++ [(k, rows)]

/-- The rows `main` emits for one (date key, block rows) entry: the key is
forced into every row, every row is padded to the 8 header columns, and one
blank separator row follows. -/
def emitBlockOf (k : Value) (rows : List Row) : List Row :=
  (_ensure_block_date rows k).map (fun r => _pad_row r 8) ++ [emptyRow8]

/-- Emission of a whole keyed block list, in order. -/
def emitKeyed : List (Value × List Row) → List Row
  | [] => []
  | p :: rest => emitBlockOf p.1 p.2 ++ emitKeyed rest

/-- Lines 557-579 of `update_weather.py` (`main`'s merge): split the existing
data rows into day blocks, deduplicate the keys first-seen keeping
`ordered_dates` alongside the dict `block_map`, replace or append the run
date's block, then emit every key's rows (re-keyed and padded) followed by a
separator. -/
def mergeRows (existingDataRows : List Row) (runDate : Value) (dataRows : List Row) : List Row :=
  let blocks := _split_day_blocks existingDataRows
  let p := blocks.foldl
    (fun acc b => if containsKey acc.2 b.1 then acc else (acc.1 ++ [b.1], acc.2 ++ [b]))
    (([], []) : List Value × List (Value × List Row))
  let orderedDates := if containsKey p.2 runDate then p.1 else p.1 ++ [runDate]
  let blockMap := if containsKey p.2 runDate then setKey p.2 runDate dataRows else p.2 ++ [(runDate, dataRows)]
  orderedDates.foldl
    (fun finalRows d => finalRows ++ emitBlockOf d ((lookupKey blockMap d).getD []))
    []

/-- Lines 547-555 of `main`: read, normalize, strip a recognised header row,
and pad every remaining data row to the 8 header columns. -/
def existingDataRowsOf (existingRows : List Row) : List Row :=
  let normalized := _normalize_existing_rows existingRows headers
  let dataRows :=
    match normalized with
    | [] => ([] : List Row)
    | first :: rest => if _is_header_row first headers then rest else first :: rest
  dataRows.map (fun r => _pad_row r 8)

/-- The full data-row pipeline of `main` from the rows read out of the
existing document to the merged `final_rows` that are written back. -/
def pipelineFinalRows (existingRows : List Row) (runDate : Value) (dataRows : List Row) : List Row :=
  mergeRows (existingDataRowsOf existingRows) runDate dataRows

/-- The complete row sequence of the document `main` writes:
`_write_xlsx(headers, final_rows, ...)` stores the header row first. -/
def containerDocumentRows (existingRows : List Row) (runDate : Value) (dataRows : List Row) : List Row :=
  headersRow :: pipelineFinalRows existingRows runDate dataRows

/-- The row-filtering loop of `update_weather_google_sheet.py`'s `main`
(lines 209-217): rows of the run date's block start a skip region; the skip
region ends at the next row with a truthy first cell, which itself is kept. -/
def googleKeepLoop (runDate : Value) : List Row → Bool → List Row
  | [], _ => []
  | row :: rest, skip =>
    if (row ≠ [] ∧ pyEq (row.headD Value.none) runDate = true) then googleKeepLoop runDate rest true
    else
      let skip' := if skip ∧ row ≠ [] ∧ pyTruthy (row.headD Value.none) = true then false else skip
      if skip' then googleKeepLoop runDate rest skip'
      else row :: googleKeepLoop runDate rest skip'

/-- `main` of `update_weather_google_sheet.py` after the fetch (lines
183-222) given the rows read from the sheet, the run date and today's block:
default an empty sheet to just the header constant, drop the existing run-date
block with the skip loop, rebuild under the constant header row, append one
blank row when any data row was kept, then append today's rows at the end. -/
def googleMain (existing : List Row) (runDate : Value) (todayRows : List Row) : List Row :=
  let existing := if existing = [] then [headersRow] else existing
  let newSheet := headersRow :: googleKeepLoop runDate (existing.drop 1) false
  let newSheet := if 1 < newSheet.length then newSheet ++ [emptyRow8] else newSheet
  newSheet ++ todayRows

/-- A well-formed persisted body: each block's rows followed by one blank
separator row, concatenated in order. -/
def joinBlocks (hist : List (String × List Row)) : List Row :=
  (hist.map (fun p => p.2 ++ [emptyRow8])).flatten

/-- The value a written cell decodes back to when the document is read again:
text survives, absent and empty collapse to empty text, booleans come back as
their `TRUE`/`FALSE` text, integers survive, and integral floats collapse to
integers. -/
def collapseValue : Value → Value
  | Value.none => Value.str ""
  | Value.str s => Value.str s
  | Value.bool b => Value.str (if b then "TRUE" else "FALSE")
  | Value.int n => Value.int n
  | Value.float t => if t.natAbs % 10 = 0 then Value.int (intOfTenths t) else Value.float t

example :
    _split_day_blocks [[Value.str "", Value.str "x"], [Value.str "D", Value.str "y"]]
      = [(Value.str "D", [[Value.str "", Value.str "x"], [Value.str "D", Value.str "y"]])] := by decide

example :
    mergeRows [[Value.str "K", Value.str "a"], [Value.str "", Value.str "b"]]
      (Value.str "D") [[Value.str "D", Value.str "c"]]
      = [_pad_row [Value.str "K", Value.str "a"] 8,
         _pad_row [Value.str "K", Value.str "b"] 8,
         emptyRow8,
         _pad_row [Value.str "D", Value.str "c"] 8,
         emptyRow8] := by decide

example :
    googleMain [headersRow, [Value.str "D", Value.str "x"], emptyRow8] (Value.str "D")
        [[Value.str "D", Value.str "z"]]
      = [headersRow, [Value.str "D", Value.str "z"]] := by decide

example :
    containerDocumentRows [headersRow, _pad_row [Value.str "D", Value.str "x"] 8, emptyRow8]
        (Value.str "D") [[Value.str "D", Value.str "z"]]
      = [headersRow, _pad_row [Value.str "D", Value.str "z"] 8, emptyRow8] := by decide

lemma letterChar_spec : ∀ r : Nat, r < 26 →
    isUpperChar (letterChar r) = true ∧ (letterChar r).toNat = 65 + r := by
  decide

lemma digitChar_spec : ∀ d : Nat, d < 10 →
    isDigitChar (digitChar d) = true ∧ digitVal (digitChar d) = d ∧
      isUpperChar (digitChar d) = false ∧ digitChar d ≠ '-' := by
  decide

lemma isDigitChar_ne_dash {c : Char} (h : isDigitChar c = true) : c ≠ '-' := by
  intro hc
  subst hc
  simp [isDigitChar] at h

lemma isDigitChar_not_upper {c : Char} (h : isDigitChar c = true) : isUpperChar c = false := by
  have h' : 48 ≤ c.toNat ∧ c.toNat ≤ 57 := by simpa [isDigitChar] using h
  have h'' : ¬ (65 ≤ c.toNat ∧ c.toNat ≤ 90) := by omega
  simpa [isUpperChar] using h''

lemma columnLetterAux_upper : ∀ fuel idx c, c ∈ columnLetterAux fuel idx → isUpperChar c = true := by
  intro fuel
  induction fuel with
  | zero => intro idx c hc; simp [columnLetterAux] at hc
  | succ f ih =>
    intro idx c hc
    by_cases h : idx = 0
    · simp [columnLetterAux, h] at hc
    · simp only [columnLetterAux, if_neg h, List.mem_append, List.mem_singleton] at hc
      rcases hc with hc | hc
      · exact ih _ _ hc
      · subst hc
        exact (letterChar_spec _ (Nat.mod_lt _ (by omega))).1

lemma colIdxGo_append_upper : ∀ xs ys acc, (∀ c ∈ xs, isUpperChar c = true) →
    colIdxGo (xs ++ ys) acc = colIdxGo ys (colIdxGo xs acc) := by
  intro xs
  induction xs with
  | nil => intro ys acc _; rfl
  | cons c cs ih =>
    intro ys acc hup
    have hc : isUpperChar c = true := hup c (List.mem_cons_self c cs)
    simp only [List.cons_append, colIdxGo, hc, if_pos]
    exact ih ys _ (fun d hd => hup d (List.mem_cons_of_mem c hd))

lemma colIdxGo_columnLetterAux : ∀ fuel idx acc, idx ≤ fuel →
    colIdxGo (columnLetterAux fuel idx) acc = acc * 26 ^ (columnLetterAux fuel idx).length + idx := by
  intro fuel
  induction fuel with
  | zero =>
    intro idx acc h
    interval_cases idx
    simp [columnLetterAux, colIdxGo]
  | succ f ih =>
    intro idx acc h
    by_cases h0 : idx = 0
    · subst h0; simp [columnLetterAux, colIdxGo]
    · have hq : (idx - 1) / 26 ≤ f := by
        have := Nat.div_le_self (idx - 1) 26
        omega
      have hr : (idx - 1) % 26 < 26 := Nat.mod_lt _ (by omega)
      have hlet := letterChar_spec _ hr
      simp only [columnLetterAux, if_neg h0]
      rw [colIdxGo_append_upper _ _ _ (fun c hc => columnLetterAux_upper _ _ _ hc)]
      rw [ih _ acc hq]
      simp only [colIdxGo, hlet.1, if_pos, List.length_append, List.length_singleton]
      have hdm : (idx - 1) / 26 * 26 + (idx - 1) % 26 = idx - 1 := by omega
      have htn : (letterChar ((idx - 1) % 26)).toNat - 65 + 1 = (idx - 1) % 26 + 1 := by
        rw [hlet.2]; omega
      rw [htn, pow_succ, ← mul_assoc]
      omega

lemma column_letter_index_roundtrip (n : Nat) : _column_index (_column_letter n) = n := by
  have h := colIdxGo_columnLetterAux n n 0 (le_refl n)
  simpa [_column_index, _column_letter] using h

/-- C4: for every column index `n` in `[1, 16384]`, `_column_letter` followed
by `_column_index` returns `n` (in fact this holds for every `n`), and
`_column_index` consumes only the leading upper-case letters, so the full
cell address `"C12"` yields column 3. -/
theorem column_address_bijection :
    (∀ n : Nat, 1 ≤ n → n ≤ 16384 → _column_index (_column_letter n) = n)
      ∧ _column_index "C12" = 3 := by
  constructor
  · intro n _ _
    exact column_letter_index_roundtrip n
  · decide

theorem column_address_bijection_witness :
    1 ≤ 16384 ∧ 16384 ≤ 16384 ∧ _column_index (_column_letter 16384) = 16384 :=
  ⟨by decide, by decide, column_address_bijection.1 16384 (by decide) (by decide)⟩

lemma natToStringAux_digits : ∀ fuel n c, c ∈ natToStringAux fuel n → isDigitChar c = true := by
  intro fuel
  induction fuel with
  | zero => intro n c hc; simp [natToStringAux] at hc
  | succ f ih =>
    intro n c hc
    by_cases h : n < 10
    · simp only [natToStringAux, if_pos h, List.mem_singleton] at hc
      subst hc; exact (digitChar_spec n h).1
    · simp only [natToStringAux, if_neg h, List.mem_append, List.mem_singleton] at hc
      rcases hc with hc | hc
      · exact ih _ _ hc
      · subst hc; exact (digitChar_spec _ (Nat.mod_lt _ (by omega))).1

lemma natToStringAux_ne_nil (fuel n : Nat) : natToStringAux (fuel + 1) n ≠ [] := by
  by_cases h : n < 10 <;> simp [natToStringAux, h]

lemma parseDigitsAux_append : ∀ xs ys acc,
    parseDigitsAux (xs ++ ys) acc = (parseDigitsAux xs acc).bind (fun a => parseDigitsAux ys a) := by
  intro xs
  induction xs with
  | nil => intro ys acc; rfl
  | cons c cs ih =>
    intro ys acc
    by_cases h : isDigitChar c = true
    · simp [parseDigitsAux, h, ih]
    · simp [parseDigitsAux, h]

lemma parseDigitsAux_natToStringAux : ∀ fuel n, n < fuel →
    parseDigitsAux (natToStringAux fuel n) 0 = some n := by
  intro fuel
  induction fuel with
  | zero => intro n h; omega
  | succ f ih =>
    intro n h
    by_cases hn : n < 10
    · simp [natToStringAux, hn, parseDigitsAux, (digitChar_spec n hn).1, (digitChar_spec n hn).2.1]
    · have hq : n / 10 < f := by
        have h1 : n / 10 < n := Nat.div_lt_self (by omega) (by omega)
        omega
      simp only [natToStringAux, if_neg hn]
      rw [parseDigitsAux_append, ih _ hq]
      have hr : n % 10 < 10 := Nat.mod_lt _ (by omega)
      have hsingle : parseDigitsAux [digitChar (n % 10)] (n / 10)
          = some (n / 10 * 10 + n % 10) := by
        simp [parseDigitsAux, (digitChar_spec _ hr).1, (digitChar_spec _ hr).2.1]
      simp only [hsingle, Option.some_bind]
      congr 1
      omega

lemma parseDigits_natToStringAux (n : Nat) : parseDigits (natToStringAux (n + 1) n) = some n := by
  unfold parseDigits
  rw [if_neg (natToStringAux_ne_nil n n)]
  exact parseDigitsAux_natToStringAux (n + 1) n (by omega)

lemma takeWhile_all {p : Char → Bool} :
    ∀ l : List Char, (∀ c ∈ l, p c = true) → l.takeWhile p = l := by
  intro l
  induction l with
  | nil => intro _; rfl
  | cons c cs ih =>
    intro h
    rw [List.takeWhile_cons, if_pos (h c (List.mem_cons_self c cs))]
    rw [ih (fun d hd => h d (List.mem_cons_of_mem c hd))]

lemma dropWhile_all {p : Char → Bool} :
    ∀ l : List Char, (∀ c ∈ l, p c = true) → l.dropWhile p = [] := by
  intro l
  induction l with
  | nil => intro _; rfl
  | cons c cs ih =>
    intro h
    rw [List.dropWhile_cons, if_pos (h c (List.mem_cons_self c cs))]
    exact ih (fun d hd => h d (List.mem_cons_of_mem c hd))

lemma takeWhile_append_stop {p : Char → Bool} :
    ∀ xs (y : Char) ys, (∀ c ∈ xs, p c = true) → p y = false →
      (xs ++ y :: ys).takeWhile p = xs := by
  intro xs
  induction xs with
  | nil => intro y ys _ hy; simp [List.takeWhile_cons, hy]
  | cons c cs ih =>
    intro y ys h hy
    rw [List.cons_append, List.takeWhile_cons, if_pos (h c (List.mem_cons_self c cs))]
    rw [ih y ys (fun d hd => h d (List.mem_cons_of_mem c hd)) hy]

lemma dropWhile_append_stop {p : Char → Bool} :
    ∀ xs (y : Char) ys, (∀ c ∈ xs, p c = true) → p y = false →
      (xs ++ y :: ys).dropWhile p = y :: ys := by
  intro xs
  induction xs with
  | nil => intro y ys _ hy; simp [List.dropWhile_cons, hy]
  | cons c cs ih =>
    intro y ys h hy
    rw [List.cons_append, List.dropWhile_cons, if_pos (h c (List.mem_cons_self c cs))]
    exact ih y ys (fun d hd => h d (List.mem_cons_of_mem c hd)) hy

lemma parseUnsignedTenths_digits (n : Nat) :
    parseUnsignedTenths (natToStringAux (n + 1) n) = some (n * 10) := by
  have hd : ∀ c ∈ natToStringAux (n + 1) n, isDigitChar c = true :=
    fun c hc => natToStringAux_digits _ _ c hc
  unfold parseUnsignedTenths
  rw [takeWhile_all _ hd, dropWhile_all _ hd, parseDigits_natToStringAux n]

lemma parseUnsignedTenths_digits_frac (q r : Nat) (hr : r < 10) :
    parseUnsignedTenths (natToStringAux (q + 1) q ++ '.' :: [digitChar r]) = some (q * 10 + r) := by
  have hd : ∀ c ∈ natToStringAux (q + 1) q, isDigitChar c = true :=
    fun c hc => natToStringAux_digits _ _ c hc
  have hdot : isDigitChar '.' = false := by decide
  unfold parseUnsignedTenths
  rw [takeWhile_append_stop _ _ _ hd hdot, dropWhile_append_stop _ _ _ hd hdot,
    parseDigits_natToStringAux q]
  simp [(digitChar_spec r hr).1, (digitChar_spec r hr).2.1]

lemma formatFloatTenths_data (t : Int) :
    (formatFloatTenths t).data
      = (if t < 0 then ['-'] else [])
          ++ natToStringAux (t.natAbs / 10 + 1) (t.natAbs / 10)
          ++ '.' :: natToStringAux (t.natAbs % 10 + 1) (t.natAbs % 10) := by
  by_cases h : t < 0 <;>
    simp [formatFloatTenths, natToString, h, String.data_append]

lemma intToString_data (i : Int) :
    (intToString i).data
      = (if i < 0 then ['-'] else []) ++ natToStringAux (i.natAbs + 1) i.natAbs := by
  by_cases h : i < 0 <;>
    simp [intToString, natToString, h, String.data_append]

lemma digits_head_not_dash (n : Nat) :
    ¬ (natToStringAux (n + 1) n).head? = some '-' := by
  obtain ⟨d, D, hD⟩ := List.exists_cons_of_ne_nil (natToStringAux_ne_nil n n)
  rw [hD]
  intro h
  have hd : isDigitChar d = true := natToStringAux_digits _ _ d (hD ▸ List.mem_cons_self d D)
  have : d = '-' := by simpa using h
  exact isDigitChar_ne_dash hd this

lemma parseFloatTenths_formatFloat (t : Int) :
    parseFloatTenths (formatFloatTenths t).data = some t := by
  have hrlt : t.natAbs % 10 < 10 := Nat.mod_lt _ (by omega)
  have hone : natToStringAux (t.natAbs % 10 + 1) (t.natAbs % 10) = [digitChar (t.natAbs % 10)] := by
    simp [natToStringAux, hrlt]
  have hdata := formatFloatTenths_data t
  rw [hone] at hdata
  have hfrac := parseUnsignedTenths_digits_frac (t.natAbs / 10) (t.natAbs % 10) hrlt
  have hqr : t.natAbs / 10 * 10 + t.natAbs % 10 = t.natAbs := by omega
  obtain ⟨d, D, hD⟩ :=
    List.exists_cons_of_ne_nil (natToStringAux_ne_nil (t.natAbs / 10) (t.natAbs / 10))
  have hddig : isDigitChar d = true :=
    natToStringAux_digits _ _ d (hD ▸ List.mem_cons_self d D)
  have hdash : ¬ (some d = some '-') := by
    simpa using isDigitChar_ne_dash hddig
  by_cases ht : t < 0
  · rw [if_pos ht] at hdata
    have hdata' : (formatFloatTenths t).data
        = '-' :: (natToStringAux (t.natAbs / 10 + 1) (t.natAbs / 10)
            ++ ['.', digitChar (t.natAbs % 10)]) := by
      rw [hdata]; rfl
    unfold parseFloatTenths
    rw [hdata', List.head?_cons, if_pos rfl, List.tail_cons, hfrac, hqr]
    simp only [Option.map_some']
    congr 1
    simp only [Int.ofNat_eq_natCast]
    omega
  · rw [if_neg ht, List.nil_append] at hdata
    unfold parseFloatTenths
    rw [hdata, hD, List.cons_append, List.head?_cons, if_neg hdash, ← List.cons_append, ← hD,
      hfrac, hqr]
    simp only [Option.map_some']
    congr 1
    simp only [Int.ofNat_eq_natCast]
    omega

lemma parseFloatTenths_intToString (i : Int) :
    parseFloatTenths (intToString i).data = some (i * 10) := by
  have hdata := intToString_data i
  have hint := parseUnsignedTenths_digits i.natAbs
  obtain ⟨d, D, hD⟩ := List.exists_cons_of_ne_nil (natToStringAux_ne_nil i.natAbs i.natAbs)
  have hddig : isDigitChar d = true :=
    natToStringAux_digits _ _ d (hD ▸ List.mem_cons_self d D)
  have hdash : ¬ (some d = some '-') := by
    simpa using isDigitChar_ne_dash hddig
  by_cases hi : i < 0
  · rw [if_pos hi] at hdata
    have hdata' : (intToString i).data = '-' :: natToStringAux (i.natAbs + 1) i.natAbs := by
      rw [hdata]; rfl
    unfold parseFloatTenths
    rw [hdata', List.head?_cons, if_pos rfl, List.tail_cons, hint]
    simp only [Option.map_some']
    congr 1
    simp only [Int.ofNat_eq_natCast]
    omega
  · rw [if_neg hi, List.nil_append] at hdata
    unfold parseFloatTenths
    rw [hdata, hD, List.head?_cons, if_neg hdash, ← hD, hint]
    simp only [Option.map_some']
    congr 1
    simp only [Int.ofNat_eq_natCast]
    omega

lemma intOfTenths_mul (i : Int) : intOfTenths (i * 10) = i := by
  unfold intOfTenths
  split <;> omega

lemma parse_format_int (i : Int) : _parse_cell_number (intToString i) = Value.int i := by
  unfold _parse_cell_number
  rw [parseFloatTenths_intToString]
  have h10 : (i * 10).natAbs % 10 = 0 := by
    have habs : (i * 10).natAbs = i.natAbs * 10 := by
      rw [Int.natAbs_mul]
      norm_num
    omega
  simp only [h10, if_pos, intOfTenths_mul]

lemma parse_format_float (t : Int) :
    _parse_cell_number (formatFloatTenths t)
      = if t.natAbs % 10 = 0 then Value.int (intOfTenths t) else Value.float t := by
  unfold _parse_cell_number
  rw [parseFloatTenths_formatFloat]

/-- C8 counterexample: the integral float `5.0` is written as the payload
`"5.0"` (one fractional digit, not a plain integer literal); decoding that
payload yields the int `5`, which re-encodes as `"5"`, so decode-then-encode
is not byte-identical on this written numeric payload. -/
theorem number_codec_counterexample :
    _format_number (Value.float 50) = "5.0"
      ∧ _parse_cell_number "5.0" = Value.int 5
      ∧ _format_number (Value.int 5) = "5"
      ∧ ("5" : String) ≠ "5.0" := by
  refine ⟨by decide, by decide, by decide, by decide⟩

/-- C8 (amended): `_format_number` discriminates on the runtime type, not on
integrality: ints become plain integer literals and floats always get exactly
one fractional digit, integral or not.  Decode-then-re-encode is byte
identical exactly on the payloads of ints and of non-integral floats; the
payload of an integral float decodes to an int and re-encodes as the plain
integer literal instead. -/
theorem number_codec_roundtrip :
    (∀ i : Int,
        _format_number (_parse_cell_number (_format_number (Value.int i)))
          = _format_number (Value.int i))
      ∧ (∀ t : Int, t.natAbs % 10 ≠ 0 →
          _format_number (_parse_cell_number (_format_number (Value.float t)))
            = _format_number (Value.float t))
      ∧ (∀ t : Int, t.natAbs % 10 = 0 →
          _parse_cell_number (_format_number (Value.float t)) = Value.int (intOfTenths t)) := by
  refine ⟨fun i => ?_, fun t ht => ?_, fun t ht => ?_⟩
  · have h : _format_number (Value.int i) = intToString i := rfl
    rw [h, parse_format_int]
    exact h
  · have h : _format_number (Value.float t) = formatFloatTenths t := rfl
    rw [h, parse_format_float, if_neg ht]
    exact h
  · have h : _format_number (Value.float t) = formatFloatTenths t := rfl
    rw [h, parse_format_float, if_pos ht]

theorem number_codec_roundtrip_witness :
    (_format_number (_parse_cell_number (_format_number (Value.int (-7))))
        = _format_number (Value.int (-7)))
      ∧ ((31 : Int).natAbs % 10 ≠ 0
          ∧ _format_number (_parse_cell_number (_format_number (Value.float 31)))
              = _format_number (Value.float 31))
      ∧ ((50 : Int).natAbs % 10 = 0
          ∧ _parse_cell_number (_format_number (Value.float 50)) = Value.int (intOfTenths 50)) :=
  ⟨number_codec_roundtrip.1 (-7),
   ⟨by decide, number_codec_roundtrip.2.1 31 (by decide)⟩,
   ⟨by decide, number_codec_roundtrip.2.2 50 (by decide)⟩⟩

lemma xmlUnescapeAux_cons_ne (c : Char) (rest : List Char) (h : c ≠ '&') :
    xmlUnescapeAux (c :: rest) = c :: xmlUnescapeAux rest := by
  rw [xmlUnescapeAux.eq_def]
  split <;> simp_all

lemma xmlUnescapeAux_escape : ∀ l : List Char, xmlUnescapeAux (l.flatMap xmlEscapeChar) = l := by
  intro l
  induction l with
  | nil => rfl
  | cons c cs ih =>
    rw [List.flatMap_cons]
    by_cases h1 : c = '&'
    · subst h1
      rw [show xmlEscapeChar '&' = "&amp;".data from rfl]
      show xmlUnescapeAux ('&' :: 'a' :: 'm' :: 'p' :: ';' :: cs.flatMap xmlEscapeChar)
        = '&' :: cs
      rw [show ∀ X, xmlUnescapeAux ('&' :: 'a' :: 'm' :: 'p' :: ';' :: X)
          = '&' :: xmlUnescapeAux X from fun X => rfl, ih]
    · by_cases h2 : c = '<'
      · subst h2
        rw [show xmlEscapeChar '<' = "&lt;".data from rfl]
        show xmlUnescapeAux ('&' :: 'l' :: 't' :: ';' :: cs.flatMap xmlEscapeChar) = '<' :: cs
        rw [show ∀ X, xmlUnescapeAux ('&' :: 'l' :: 't' :: ';' :: X)
            = '<' :: xmlUnescapeAux X from fun X => rfl, ih]
      · by_cases h3 : c = '>'
        · subst h3
          rw [show xmlEscapeChar '>' = "&gt;".data from rfl]
          show xmlUnescapeAux ('&' :: 'g' :: 't' :: ';' :: cs.flatMap xmlEscapeChar) = '>' :: cs
          rw [show ∀ X, xmlUnescapeAux ('&' :: 'g' :: 't' :: ';' :: X)
              = '>' :: xmlUnescapeAux X from fun X => rfl, ih]
        · rw [show xmlEscapeChar c = [c] from by simp [xmlEscapeChar, h1, h2, h3],
            List.singleton_append, xmlUnescapeAux_cons_ne c _ h1, ih]

lemma xmlUnescape_escape (s : String) : xmlUnescape (xmlEscape s) = s := by
  obtain ⟨l⟩ := s
  simp [xmlUnescape, xmlEscape, xmlUnescapeAux_escape]

lemma get_cell_written (v : Value) (rowIdx colIdx : Nat) (shared : List String) :
    _get_cell_value (_cell_xml v rowIdx colIdx) shared = collapseValue v := by
  cases v with
  | none => rfl
  | bool b =>
    cases b
    · show Value.str (xmlUnescape "FALSE") = Value.str "FALSE"
      rw [show xmlUnescape "FALSE" = "FALSE" from by decide]
    · show Value.str (xmlUnescape "TRUE") = Value.str "TRUE"
      rw [show xmlUnescape "TRUE" = "TRUE" from by decide]
  | int n =>
    show _parse_cell_number (_format_number (Value.int n)) = Value.int n
    rw [show _format_number (Value.int n) = intToString n from rfl, parse_format_int]
  | float t =>
    show _parse_cell_number (_format_number (Value.float t)) = collapseValue (Value.float t)
    rw [show _format_number (Value.float t) = formatFloatTenths t from rfl, parse_format_float]
    rfl
  | str s =>
    by_cases h : s = ""
    · subst h; rfl
    · simp only [_cell_xml, if_neg h, _get_cell_value]
      rw [xmlUnescape_escape]
      rfl

lemma set_append_len (l : List Value) (x v : Value) :
    (l ++ [x]).set l.length v = l ++ [v] := by
  induction l with
  | nil => rfl
  | cons a as ih => simp only [List.cons_append, List.length_cons, List.set_cons_succ, ih]

lemma leadingLetters_append (xs ys : List Char) (hxs : ∀ c ∈ xs, isUpperChar c = true)
    (hys : ∀ d, ys.head? = some d → isUpperChar d = false) :
    leadingLetters (xs ++ ys) = xs := by
  induction xs with
  | nil =>
    simp only [List.nil_append]
    cases ys with
    | nil => rfl
    | cons y ys' =>
      have := hys y rfl
      simp [leadingLetters, this]
  | cons c cs ih =>
    simp only [List.cons_append, leadingLetters, hxs c (List.mem_cons_self c cs), if_pos]
    rw [List.append_eq, ih (fun d hd => hxs d (List.mem_cons_of_mem c hd))]

lemma columnLetterAux_ne_nil : ∀ idx, 1 ≤ idx → columnLetterAux idx idx ≠ [] := by
  intro idx h
  obtain ⟨k, rfl⟩ : ∃ k, idx = k + 1 := ⟨idx - 1, by omega⟩
  simp [columnLetterAux]

lemma cellRef_cell_xml (v : Value) (rowIdx colIdx : Nat) :
    cellRef (_cell_xml v rowIdx colIdx) = _column_letter colIdx ++ natToString rowIdx := by
  cases v with
  | none => rfl
  | bool b => rfl
  | int n => rfl
  | float t => rfl
  | str s => by_cases h : s = "" <;> simp [_cell_xml, cellRef, h]

lemma applyCell_written (shared : List String) (rv : List Value) (v : Value) (rowIdx colIdx : Nat)
    (hlen : rv.length = colIdx - 1) (hc : 1 ≤ colIdx) :
    applyCell shared rv (_cell_xml v rowIdx colIdx) = rv ++ [collapseValue v] := by
  have href : (cellRef (_cell_xml v rowIdx colIdx)).data
      = columnLetterAux colIdx colIdx ++ natToStringAux (rowIdx + 1) rowIdx := by
    rw [cellRef_cell_xml]
    simp [_column_letter, natToString, String.data_append]
  have hletters : leadingLetters ((cellRef (_cell_xml v rowIdx colIdx)).data)
      = columnLetterAux colIdx colIdx := by
    rw [href]
    apply leadingLetters_append
    · exact fun c hcc => columnLetterAux_upper _ _ c hcc
    · intro d hd
      obtain ⟨e, E, hE⟩ := List.exists_cons_of_ne_nil (natToStringAux_ne_nil rowIdx rowIdx)
      rw [hE] at hd
      simp only [List.head?_cons, Option.some.injEq] at hd
      subst hd
      exact isDigitChar_not_upper (natToStringAux_digits _ _ _ (hE ▸ List.mem_cons_self e E))
  have hcol : colIdxGo (columnLetterAux colIdx colIdx) 0 = colIdx := by
    have h := colIdxGo_columnLetterAux colIdx colIdx 0 (le_refl _)
    simpa using h
  simp only [applyCell]
  rw [hletters]
  rw [if_neg (columnLetterAux_ne_nil colIdx hc)]
  rw [hcol]
  rw [if_neg (show ¬ colIdx = 0 by omega)]
  rw [if_pos (show rv.length < colIdx by omega)]
  rw [show colIdx - rv.length = 1 from by omega]
  rw [show List.replicate 1 (Value.str "") = [Value.str ""] from rfl]
  rw [show colIdx - 1 = rv.length from by omega]
  rw [set_append_len, get_cell_written]

lemma readRow_writeRow (shared : List String) : ∀ (row : Row) (rowIdx colIdx : Nat)
    (rv : List Value), rv.length = colIdx - 1 → 1 ≤ colIdx →
    (writeRowCellsFrom rowIdx colIdx row).foldl (applyCell shared) rv
      = rv ++ row.map collapseValue := by
  intro row
  induction row with
  | nil => intro rowIdx colIdx rv h hc; simp [writeRowCellsFrom]
  | cons v vs ih =>
    intro rowIdx colIdx rv h hc
    simp only [writeRowCellsFrom, List.foldl_cons]
    rw [applyCell_written shared rv v rowIdx colIdx h hc]
    rw [ih rowIdx (colIdx + 1) _ (by simp; omega) (by omega)]
    simp

lemma readSheet_writeSheet (shared : List String) : ∀ (rows : List Row) (rowIdx : Nat),
    (writeSheetFrom rowIdx rows).map (fun cells => cells.foldl (applyCell shared) [])
      = rows.map (fun r => r.map collapseValue) := by
  intro rows
  induction rows with
  | nil => intro _; rfl
  | cons r rs ih =>
    intro rowIdx
    simp only [writeSheetFrom, List.map_cons]
    rw [readRow_writeRow shared r rowIdx 1 [] (by simp) (by omega), ih (rowIdx + 1)]
    simp

/-- C2 (amended): reading back what the document writer wrote yields the
header and data rows transformed cell-wise by `collapseValue`: text and ints
survive, absent values and empty text collapse to empty text, booleans come
back as their `TRUE`/`FALSE` text, and integral floats come back as ints.
Interior column gaps cannot arise from this writer (it emits an element for
every cell, blank cells included), so no back-fill difference remains. -/
theorem write_read_roundtrip (hdrs : Row) (rows : List Row) :
    readSheetCells (writeSheetCells hdrs rows) []
      = (hdrs :: rows).map (fun r => r.map collapseValue) := by
  unfold readSheetCells writeSheetCells
  exact readSheet_writeSheet [] (hdrs :: rows) 1

/-- C2 counterexample: a boolean cell does not round-trip to itself (it reads
back as its `TRUE` text) and an integral float reads back as an int, so the
reader output differs from the original rows by more than back-fill and
absent/empty collapsing. -/
theorem write_read_roundtrip_counterexample :
    readSheetCells (writeSheetCells [Value.str "h"] [[Value.bool true], [Value.float 50]]) []
        = [[Value.str "h"], [Value.str "TRUE"], [Value.int 5]]
      ∧ Value.str "TRUE" ≠ Value.bool true
      ∧ Value.int 5 ≠ Value.float 50 := by
  refine ⟨by decide, by decide, by decide⟩

lemma pyEq_refl (v : Value) : pyEq v v = true := by
  cases v <;> simp [pyEq]

lemma containsKey_false {m : List (Value × List Row)} {k : Value}
    (h : containsKey m k = false) : ∀ p ∈ m, pyEq p.1 k = false := by
  intro p hp
  simp only [containsKey, List.any_eq_false] at h
  simpa using h p hp

lemma dedup_pair_spec : ∀ (blocks m : List (Value × List Row)),
    blocks.foldl
        (fun acc b => if containsKey acc.2 b.1 then acc else (acc.1 ++ [b.1], acc.2 ++ [b]))
        (m.map Prod.fst, m)
      = ((dedupFold blocks m).map Prod.fst, dedupFold blocks m) := by
  intro blocks
  induction blocks with
  | nil => intro m; rfl
  | cons b bs ih =>
    intro m
    simp only [List.foldl_cons, dedupFold]
    by_cases h : containsKey m b.1 = true
    · rw [if_pos h, if_pos h]
      exact ih m
    · rw [if_neg h, if_neg h]
      have h2 : (m ++ [b]).map Prod.fst = m.map Prod.fst ++ [b.1] := by simp
      rw [← h2]
      exact ih (m ++ [b])

lemma dedupFold_distinct : ∀ (blocks m : List (Value × List Row)),
    m.Pairwise (fun a b => pyEq a.1 b.1 = false) →
    (dedupFold blocks m).Pairwise (fun a b => pyEq a.1 b.1 = false) := by
  intro blocks
  induction blocks with
  | nil => intro m h; exact h
  | cons b bs ih =>
    intro m h
    simp only [dedupFold]
    by_cases hc : containsKey m b.1 = true
    · rw [if_pos hc]; exact ih m h
    · rw [if_neg hc]
      apply ih
      rw [List.pairwise_append]
      refine ⟨h, List.pairwise_singleton _ _, ?_⟩
      intro a ha b' hb'
      simp only [List.mem_singleton] at hb'
      subst hb'
      exact containsKey_false (by simpa using hc) a ha

lemma dedupFold_mem : ∀ (blocks m : List (Value × List Row)) p,
    p ∈ dedupFold blocks m → p ∈ m ∨ p ∈ blocks := by
  intro blocks
  induction blocks with
  | nil => intro m p h; exact Or.inl h
  | cons b bs ih =>
    intro m p h
    simp only [dedupFold] at h
    by_cases hc : containsKey m b.1 = true
    · rw [if_pos hc] at h
      rcases ih m p h with h' | h'
      · exact Or.inl h'
      · exact Or.inr (List.mem_cons_of_mem b h')
    · rw [if_neg hc] at h
      rcases ih (m ++ [b]) p h with h' | h'
      · rcases List.mem_append.mp h' with h'' | h''
        · exact Or.inl h''
        · simp only [List.mem_singleton] at h''
          subst h''
          exact Or.inr (List.mem_cons_self _ _)
      · exact Or.inr (List.mem_cons_of_mem b h')

lemma setKey_map_fst (m : List (Value × List Row)) (k : Value) (v : List Row) :
    (setKey m k v).map Prod.fst = m.map Prod.fst := by
  induction m with
  | nil => rfl
  | cons p rest ih =>
    simp only [setKey]
    by_cases h : pyEq p.1 k = true
    · rw [if_pos h]; simp
    · rw [if_neg h]; simp [ih]

lemma setKey_mem (m : List (Value × List Row)) (k : Value) (v : List Row) :
    ∀ p ∈ setKey m k v, p ∈ m ∨ p.2 = v := by
  induction m with
  | nil => intro p h; simp [setKey] at h
  | cons q rest ih =>
    intro p h
    simp only [setKey] at h
    by_cases hc : pyEq q.1 k = true
    · rw [if_pos hc] at h
      rcases List.mem_cons.mp h with h' | h'
      · subst h'; exact Or.inr rfl
      · exact Or.inl (List.mem_cons_of_mem q h')
    · rw [if_neg hc] at h
      rcases List.mem_cons.mp h with h' | h'
      · subst h'; exact Or.inl (List.mem_cons_self _ _)
      · rcases ih p h' with h'' | h''
        · exact Or.inl (List.mem_cons_of_mem q h'')
        · exact Or.inr h''

lemma pairwise_keys_map (m : List (Value × List Row)) :
    m.Pairwise (fun a b => pyEq a.1 b.1 = false)
      ↔ (m.map Prod.fst).Pairwise (fun a b => pyEq a b = false) := by
  rw [List.pairwise_map]

lemma emitFold_spec : ∀ (M N : List (Value × List Row)) (acc : List Row),
    M.Pairwise (fun a b => pyEq a.1 b.1 = false) →
    (∀ d ∈ M.map Prod.fst, lookupKey N d = lookupKey M d) →
    (M.map Prod.fst).foldl
        (fun finalRows d => finalRows ++ emitBlockOf d ((lookupKey N d).getD []))
        acc
      = acc ++ emitKeyed M := by
  intro M
  induction M with
  | nil => intro N acc _ _; simp [emitKeyed]
  | cons p M' ih =>
    intro N acc hpw hlk
    simp only [List.map_cons, List.foldl_cons]
    have hlk1 : lookupKey N p.1 = some p.2 := by
      rw [hlk p.1 (by simp)]
      simp [lookupKey, pyEq_refl]
    rw [hlk1]
    have hpw' := List.pairwise_cons.mp hpw
    have hlk' : ∀ d ∈ M'.map Prod.fst, lookupKey N d = lookupKey M' d := by
      intro d hd
      rw [hlk d (by simp [hd])]
      have hne : pyEq p.1 d = false := by
        obtain ⟨q, hq, rfl⟩ := List.mem_map.mp hd
        exact hpw'.1 q hq
      simp [lookupKey, hne]
    simp only [Option.getD_some]
    rw [ih N (acc ++ emitBlockOf p.1 p.2) hpw'.2 hlk']
    simp [emitKeyed, List.append_assoc]

lemma mergeRows_eq_emit (ex : List Row) (rd : Value) (new : List Row) :
    mergeRows ex rd new
      = emitKeyed (upsertKeyed (dedupFold (_split_day_blocks ex) []) rd new) := by
  unfold mergeRows upsertKeyed
  have hfold0 : (_split_day_blocks ex).foldl
      (fun acc b => if containsKey acc.2 b.1 then acc else (acc.1 ++ [b.1], acc.2 ++ [b]))
      (([], []) : List Value × List (Value × List Row))
      = ((dedupFold (_split_day_blocks ex) []).map Prod.fst,
          dedupFold (_split_day_blocks ex) []) := by
    simpa using dedup_pair_spec (_split_day_blocks ex) []
  have hdistinct : (dedupFold (_split_day_blocks ex) []).Pairwise
      (fun a b => pyEq a.1 b.1 = false) :=
    dedupFold_distinct _ _ List.Pairwise.nil
  dsimp only
  rw [hfold0]
  dsimp only
  by_cases hc : containsKey (dedupFold (_split_day_blocks ex) []) rd = true
  · simp only [if_pos hc]
    rw [← setKey_map_fst (dedupFold (_split_day_blocks ex) []) rd new]
    rw [emitFold_spec _ _ [] ?pairwise ?lookups]
    case pairwise =>
      rw [pairwise_keys_map, setKey_map_fst, ← pairwise_keys_map]
      exact hdistinct
    case lookups => intro d _; rfl
    simp
  · simp only [if_neg hc]
    have hmap : (dedupFold (_split_day_blocks ex) [] ++ [(rd, new)]).map Prod.fst
        = (dedupFold (_split_day_blocks ex) []).map Prod.fst ++ [rd] := by simp
    rw [← hmap]
    rw [emitFold_spec _ _ [] ?pairwise ?lookups]
    case pairwise =>
      rw [List.pairwise_append]
      refine ⟨hdistinct, List.pairwise_singleton _ _, ?_⟩
      intro a ha b hb
      simp only [List.mem_singleton] at hb
      subst hb
      exact containsKey_false (by simpa using hc) a ha
    case lookups => intro d _; rfl
    simp

lemma pad_length (row : Row) (n : Nat) : (_pad_row row n).length = n := by
  unfold _pad_row
  split <;> simp <;> omega

lemma pad_eq_self {row : Row} {n : Nat} (h : row.length = n) : _pad_row row n = row := by
  unfold _pad_row
  rw [if_neg (by omega)]
  rw [← h, List.take_length]

lemma ensure_go_id {k : Value} : ∀ rs : List Row,
    (∀ r ∈ rs, r.headD Value.none = k ∧ r.length = 8) →
    (rs.filterMap (fun row => match row with
        | [] => Option.none
        | _ :: tail => some (k :: tail))).map (fun r => _pad_row r 8) = rs := by
  intro rs
  induction rs with
  | nil => intro _; rfl
  | cons r rest ih =>
    intro h
    obtain ⟨hhead, hlen⟩ := h r (List.mem_cons_self r rest)
    cases r with
    | nil => simp at hlen
    | cons x tail =>
      have hx : x = k := by simpa using hhead
      rw [hx] at hlen ⊢
      rw [List.filterMap_cons]
      dsimp only
      rw [List.map_cons]
      rw [pad_eq_self hlen]
      rw [ih (fun r hr => h r (List.mem_cons_of_mem _ hr))]

lemma ensure_pad_id {k : Value} (hk : isEmptyCell k = false) (rs : List Row)
    (h : ∀ r ∈ rs, r.headD Value.none = k ∧ r.length = 8) :
    (_ensure_block_date rs k).map (fun r => _pad_row r 8) = rs := by
  unfold _ensure_block_date
  rw [if_neg (by simp [hk])]
  exact ensure_go_id rs h

/-- C1 (amended): the merge of `main` computes exactly the first-seen
deduplication of the split history followed by a replace-in-place (when the
run date's key is already present) or an append at the end, emitted in order;
and a historical block is reproduced byte-identically exactly when its rows
already carry the block's key in their first cell and already have the
8-column header width, since emission forces the key into each row and pads
each row (the first conjunct is the exact characterisation, the second the
identity on well-formed blocks). -/
theorem merge_first_seen_upsert :
    (∀ (ex : List Row) (rd : Value) (new : List Row),
        mergeRows ex rd new
          = emitKeyed (upsertKeyed (dedupFold (_split_day_blocks ex) []) rd new))
      ∧ (∀ (k : Value) (rs : List Row), isEmptyCell k = false →
          (∀ r ∈ rs, r.headD Value.none = k ∧ r.length = 8) →
          (_ensure_block_date rs k).map (fun r => _pad_row r 8) = rs) :=
  ⟨mergeRows_eq_emit, fun k rs hk h => ensure_pad_id (k := k) hk rs h⟩

theorem merge_first_seen_upsert_witness :
    (mergeRows [] (Value.str "2024-01-01") [[Value.str "2024-01-01"]]
        = emitKeyed (upsertKeyed (dedupFold (_split_day_blocks []) []) (Value.str "2024-01-01")
            [[Value.str "2024-01-01"]]))
      ∧ (isEmptyCell (Value.str "K") = false
          ∧ (_ensure_block_date [List.replicate 8 (Value.str "K")] (Value.str "K")).map
                (fun r => _pad_row r 8)
              = [List.replicate 8 (Value.str "K")]) :=
  ⟨merge_first_seen_upsert.1 [] _ _,
   ⟨by decide,
    merge_first_seen_upsert.2 (Value.str "K") [List.replicate 8 (Value.str "K")] (by decide)
      (by decide)⟩⟩

/-- C1 counterexample: a history whose `"K"` block contains a continuation
row (empty first cell) is not reproduced byte-identically by the merge even
though its key differs from the run date: the continuation row
`["", "b", "", ...]` comes out as `["K", "b", "", ...]`. -/
theorem merge_counterexample :
    mergeRows
        [[Value.str "K", Value.str "a", Value.str "", Value.str "", Value.str "",
          Value.str "", Value.str "", Value.str ""],
         [Value.str "", Value.str "b", Value.str "", Value.str "", Value.str "",
          Value.str "", Value.str "", Value.str ""]]
        (Value.str "D")
        [[Value.str "D", Value.str "c", Value.str "", Value.str "", Value.str "",
          Value.str "", Value.str "", Value.str ""]]
      = [[Value.str "K", Value.str "a", Value.str "", Value.str "", Value.str "",
          Value.str "", Value.str "", Value.str ""],
         [Value.str "K", Value.str "b", Value.str "", Value.str "", Value.str "",
          Value.str "", Value.str "", Value.str ""],
         emptyRow8,
         [Value.str "D", Value.str "c", Value.str "", Value.str "", Value.str "",
          Value.str "", Value.str "", Value.str ""],
         emptyRow8]
      ∧ [Value.str "", Value.str "b", Value.str "", Value.str "", Value.str "",
          Value.str "", Value.str "", Value.str ""] ∉ mergeRows
        [[Value.str "K", Value.str "a", Value.str "", Value.str "", Value.str "",
          Value.str "", Value.str "", Value.str ""],
         [Value.str "", Value.str "b", Value.str "", Value.str "", Value.str "",
          Value.str "", Value.str "", Value.str ""]]
        (Value.str "D")
        [[Value.str "D", Value.str "c", Value.str "", Value.str "", Value.str "",
          Value.str "", Value.str "", Value.str ""]] := by
  refine ⟨by decide, by decide⟩

lemma isEmptyRow_cons_false {x : Value} {t : Row} (h : isEmptyCell x = false) :
    isEmptyRow (x :: t) = false := by
  simp [isEmptyRow, h]

lemma isEmptyRow_false_ne_nil {r : Row} (h : isEmptyRow r = false) : r ≠ [] := by
  intro hr
  subst hr
  simp [isEmptyRow] at h

lemma splitGo_blocks_sound (P : Row → Prop) : ∀ (rows : List Row)
    (blocks : List (Value × List Row)) (cur : List Row) (cd : Value),
    (∀ r ∈ rows, P r) →
    (∀ r ∈ cur, P r ∧ isEmptyRow r = false) →
    (∀ b ∈ blocks, b.2 ≠ [] ∧ ∀ r ∈ b.2, P r ∧ isEmptyRow r = false) →
    ∀ b ∈ splitGo rows blocks cur cd, b.2 ≠ [] ∧ ∀ r ∈ b.2, P r ∧ isEmptyRow r = false := by
  intro rows
  induction rows with
  | nil =>
    intro blocks cur cd _ hcur hblocks b hb
    simp only [splitGo] at hb
    by_cases hcn : cur = []
    · rw [if_pos hcn] at hb
      exact hblocks b hb
    · rw [if_neg hcn] at hb
      rcases List.mem_append.mp hb with h | h
      · exact hblocks b h
      · simp only [List.mem_singleton] at h
        subst h
        exact ⟨hcn, hcur⟩
  | cons row rest ih =>
    intro blocks cur cd hrows hcur hblocks b hb
    have hrowsrest : ∀ r ∈ rest, P r := fun r hr => hrows r (List.mem_cons_of_mem _ hr)
    have hProw : P row := hrows row (List.mem_cons_self _ _)
    simp only [splitGo] at hb
    by_cases he : isEmptyRow row = true
    · rw [if_pos he] at hb
      by_cases hcn : cur = []
      · rw [if_pos hcn] at hb
        exact ih blocks cur cd hrowsrest hcur hblocks b hb
      · rw [if_neg hcn] at hb
        refine ih _ [] Value.none hrowsrest (by simp) ?_ b hb
        intro b' hb'
        rcases List.mem_append.mp hb' with h | h
        · exact hblocks b' h
        · simp only [List.mem_singleton] at h
          subst h
          exact ⟨hcn, hcur⟩
    · rw [if_neg he] at hb
      have hem : isEmptyRow row = false := by simpa using he
      have hcur1 : ∀ r ∈ cur ++ [row], P r ∧ isEmptyRow r = false := by
        intro r hr
        rcases List.mem_append.mp hr with h | h
        · exact hcur r h
        · simp only [List.mem_singleton] at h
          subst h
          exact ⟨hProw, hem⟩
      by_cases hkey : isEmptyCell (row.headD (Value.str "")) = true
      · rw [if_pos hkey] at hb
        exact ih blocks _ _ hrowsrest hcur1 hblocks b hb
      · rw [if_neg hkey] at hb
        by_cases hflush : cur ≠ [] ∧ isEmptyCell cd = false
            ∧ pyEq (row.headD (Value.str "")) cd = false
        · rw [if_pos hflush] at hb
          refine ih _ [row] _ hrowsrest ?_ ?_ b hb
          · intro r hr
            simp only [List.mem_singleton] at hr
            subst hr
            exact ⟨hProw, hem⟩
          · intro b' hb'
            rcases List.mem_append.mp hb' with h | h
            · exact hblocks b' h
            · simp only [List.mem_singleton] at h
              subst h
              exact ⟨hflush.1, hcur⟩
        · rw [if_neg hflush] at hb
          exact ih blocks _ _ hrowsrest hcur1 hblocks b hb

lemma pad_cons_head {x : Value} (t : Row) (hx : isEmptyCell x = false) :
    isEmptyRow (_pad_row (x :: t) 8) = false := by
  unfold _pad_row
  split
  · rw [List.cons_append]
    rw [show ((x :: (t ++ List.replicate (8 - (x :: t).length) (Value.str ""))).take 8)
        = x :: ((t ++ List.replicate (8 - (x :: t).length) (Value.str "")).take 7) from rfl]
    exact isEmptyRow_cons_false hx
  · rw [show ((x :: t).take 8) = x :: (t.take 7) from rfl]
    exact isEmptyRow_cons_false hx

lemma ensure_mem {k : Value} (hk : isEmptyCell k = false) (rs : List Row) :
    ∀ r' ∈ _ensure_block_date rs k, ∃ t, r' = k :: t := by
  unfold _ensure_block_date
  rw [if_neg (by simp [hk])]
  intro r' hr'
  obtain ⟨r, _, hfr⟩ := List.mem_filterMap.mp hr'
  cases r with
  | nil => simp at hfr
  | cons x t =>
    refine ⟨t, ?_⟩
    simpa using hfr.symm

lemma ensure_ne_nil {k : Value} (rs : List Row) (hne : rs ≠ [])
    (hrows : ∀ r ∈ rs, r ≠ []) : _ensure_block_date rs k ≠ [] := by
  unfold _ensure_block_date
  split
  · exact hne
  · cases rs with
    | nil => exact absurd rfl hne
    | cons r rest =>
      have hr : r ≠ [] := hrows r (List.mem_cons_self _ _)
      cases r with
      | nil => exact absurd rfl hr
      | cons x t =>
        rw [List.filterMap_cons]
        dsimp only
        simp

lemma emitChunk_ok (k : Value) (rs : List Row) (hne : rs ≠ [])
    (hrows : ∀ r ∈ rs, isEmptyRow r = false ∧ r.length = 8) :
    (_ensure_block_date rs k).map (fun r => _pad_row r 8) ≠ []
      ∧ ∀ r ∈ (_ensure_block_date rs k).map (fun r => _pad_row r 8), isEmptyRow r = false := by
  by_cases hk : isEmptyCell k = true
  · have hid : _ensure_block_date rs k = rs := by
      unfold _ensure_block_date
      rw [if_pos hk]
    rw [hid]
    constructor
    · simp [hne]
    · intro r hr
      obtain ⟨r0, hr0, rfl⟩ := List.mem_map.mp hr
      rw [pad_eq_self (hrows r0 hr0).2]
      exact (hrows r0 hr0).1
  · have hk' : isEmptyCell k = false := by simpa using hk
    have hnn : ∀ r ∈ rs, r ≠ [] := fun r hr => isEmptyRow_false_ne_nil (hrows r hr).1
    constructor
    · intro hmap
      exact ensure_ne_nil rs hne hnn (List.map_eq_nil_iff.mp hmap)
    · intro r hr
      obtain ⟨r0, hr0, rfl⟩ := List.mem_map.mp hr
      obtain ⟨t, rfl⟩ := ensure_mem hk' rs r0 hr0
      exact pad_cons_head t hk'

lemma emitChunk_new_ok (k : Value) (new : List Row) (hne : new ≠ [])
    (h : ∀ r ∈ new, isEmptyRow (_pad_row r 8) = false) :
    (_ensure_block_date new k).map (fun r => _pad_row r 8) ≠ []
      ∧ ∀ r ∈ (_ensure_block_date new k).map (fun r => _pad_row r 8), isEmptyRow r = false := by
  by_cases hk : isEmptyCell k = true
  · have hid : _ensure_block_date new k = new := by
      unfold _ensure_block_date
      rw [if_pos hk]
    rw [hid]
    refine ⟨by simp [hne], ?_⟩
    intro r hr
    obtain ⟨r0, hr0, rfl⟩ := List.mem_map.mp hr
    exact h r0 hr0
  · have hk' : isEmptyCell k = false := by simpa using hk
    have hnn : ∀ r ∈ new, r ≠ [] := by
      intro r hr hnil
      subst hnil
      have hfalse := h [] hr
      have htrue : isEmptyRow (_pad_row [] 8) = true := by decide
      rw [htrue] at hfalse
      exact Bool.noConfusion hfalse
    refine ⟨fun hmap => ensure_ne_nil new hne hnn (List.map_eq_nil_iff.mp hmap), ?_⟩
    intro r hr
    obtain ⟨r0, hr0, rfl⟩ := List.mem_map.mp hr
    obtain ⟨t, rfl⟩ := ensure_mem hk' new r0 hr0
    exact pad_cons_head t hk'

lemma emitKeyed_eq_join : ∀ m : List (Value × List Row),
    emitKeyed m
      = (m.map (fun p => (_ensure_block_date p.2 p.1).map (fun r => _pad_row r 8))).foldr
          (fun c acc => c ++ emptyRow8 :: acc) [] := by
  intro m
  induction m with
  | nil => rfl
  | cons p rest ih =>
    simp only [emitKeyed, List.map_cons, List.foldr_cons, emitBlockOf, ih]
    simp [List.append_assoc]

lemma prepadded_len (ex : List Row) : ∀ r ∈ existingDataRowsOf ex, r.length = 8 := by
  intro r hr
  unfold existingDataRowsOf at hr
  obtain ⟨r0, _, rfl⟩ := List.mem_map.mp hr
  exact pad_length r0 8

/-- C3: every day-block emitted by the merge pipeline (including the last) is
followed by exactly one all-empty separator row, and no two blocks are
adjacent without one: the final row sequence is a concatenation of non-empty
chunks of non-empty rows, each terminated by exactly one `emptyRow8`.  The
hypotheses state what is always true of the freshly fetched block in `main`:
it has one row per location and each of its rows keeps a non-empty cell after
padding (the location name, at least, is never empty). -/
theorem final_rows_separator_invariant (ex : List Row) (rd : Value) (new : List Row)
    (h1 : ∀ r ∈ new, isEmptyRow (_pad_row r 8) = false) (h2 : new ≠ []) :
    ∃ chunks : List (List Row),
      pipelineFinalRows ex rd new
          = chunks.foldr (fun c acc => c ++ emptyRow8 :: acc) []
        ∧ chunks ≠ []
        ∧ ∀ c ∈ chunks, c ≠ [] ∧ ∀ r ∈ c, isEmptyRow r = false := by
  have hsound : ∀ b ∈ _split_day_blocks (existingDataRowsOf ex),
      b.2 ≠ [] ∧ ∀ r ∈ b.2, r.length = 8 ∧ isEmptyRow r = false := by
    intro b hb
    exact splitGo_blocks_sound (fun r => r.length = 8) (existingDataRowsOf ex) [] [] Value.none
      (prepadded_len ex) (by simp) (by simp) b hb
  have hdd : ∀ p ∈ dedupFold (_split_day_blocks (existingDataRowsOf ex)) [],
      p.2 ≠ [] ∧ ∀ r ∈ p.2, r.length = 8 ∧ isEmptyRow r = false := by
    intro p hp
    rcases dedupFold_mem _ _ p hp with h | h
    · simp at h
    · exact hsound p h
  have hMok : ∀ p ∈ upsertKeyed (dedupFold (_split_day_blocks (existingDataRowsOf ex)) []) rd new,
      (_ensure_block_date p.2 p.1).map (fun r => _pad_row r 8) ≠ []
        ∧ ∀ r ∈ (_ensure_block_date p.2 p.1).map (fun r => _pad_row r 8),
            isEmptyRow r = false := by
    intro p hp
    unfold upsertKeyed at hp
    by_cases hc : containsKey (dedupFold (_split_day_blocks (existingDataRowsOf ex)) []) rd = true
    · rw [if_pos hc] at hp
      rcases setKey_mem _ _ _ p hp with h | h
      · obtain ⟨hne, hrows⟩ := hdd p h
        exact emitChunk_ok p.1 p.2 hne (fun r hr => ⟨(hrows r hr).2, (hrows r hr).1⟩)
      · rw [h]
        exact emitChunk_new_ok p.1 new h2 h1
    · rw [if_neg hc] at hp
      rcases List.mem_append.mp hp with h | h
      · obtain ⟨hne, hrows⟩ := hdd p h
        exact emitChunk_ok p.1 p.2 hne (fun r hr => ⟨(hrows r hr).2, (hrows r hr).1⟩)
      · simp only [List.mem_singleton] at h
        subst h
        exact emitChunk_new_ok rd new h2 h1
  have hMne :
      upsertKeyed (dedupFold (_split_day_blocks (existingDataRowsOf ex)) []) rd new ≠ [] := by
    unfold upsertKeyed
    by_cases hc : containsKey (dedupFold (_split_day_blocks (existingDataRowsOf ex)) []) rd = true
    · rw [if_pos hc]
      intro hnil
      have hfst := setKey_map_fst (dedupFold (_split_day_blocks (existingDataRowsOf ex)) []) rd new
      rw [hnil] at hfst
      have hddnil : dedupFold (_split_day_blocks (existingDataRowsOf ex)) [] = [] := by
        cases hdd0 : dedupFold (_split_day_blocks (existingDataRowsOf ex)) [] with
        | nil => rfl
        | cons a l => rw [hdd0] at hfst; simp at hfst
      rw [hddnil] at hc
      simp [containsKey] at hc
    · rw [if_neg hc]
      simp
  refine ⟨(upsertKeyed (dedupFold (_split_day_blocks (existingDataRowsOf ex)) []) rd new).map
      (fun p => (_ensure_block_date p.2 p.1).map (fun r => _pad_row r 8)), ?_, ?_, ?_⟩
  · rw [show pipelineFinalRows ex rd new = mergeRows (existingDataRowsOf ex) rd new from rfl,
      mergeRows_eq_emit, emitKeyed_eq_join]
  · simp [hMne]
  · intro c hc
    obtain ⟨p, hp, rfl⟩ := List.mem_map.mp hc
    exact hMok p hp

theorem final_rows_separator_invariant_witness :
    (∀ r ∈ ([[Value.str "2024-01-02", Value.str "Peniche"]] : List Row),
        isEmptyRow (_pad_row r 8) = false)
      ∧ ([[Value.str "2024-01-02", Value.str "Peniche"]] : List Row) ≠ []
      ∧ ∃ chunks : List (List Row),
          pipelineFinalRows [] (Value.str "2024-01-02")
              [[Value.str "2024-01-02", Value.str "Peniche"]]
            = chunks.foldr (fun c acc => c ++ emptyRow8 :: acc) []
          ∧ chunks ≠ []
          ∧ ∀ c ∈ chunks, c ≠ [] ∧ ∀ r ∈ c, isEmptyRow r = false :=
  ⟨by decide, by decide,
   final_rows_separator_invariant [] (Value.str "2024-01-02")
     [[Value.str "2024-01-02", Value.str "Peniche"]] (by decide) (by decide)⟩

lemma emitKeyed_len : ∀ m : List (Value × List Row), ∀ r ∈ emitKeyed m, r.length = 8 := by
  intro m
  induction m with
  | nil => intro r hr; simp [emitKeyed] at hr
  | cons p rest ih =>
    intro r hr
    simp only [emitKeyed] at hr
    rcases List.mem_append.mp hr with h | h
    · unfold emitBlockOf at h
      rcases List.mem_append.mp h with h' | h'
      · obtain ⟨r0, _, rfl⟩ := List.mem_map.mp h'
        exact pad_length r0 8
      · simp only [List.mem_singleton] at h'
        subst h'
        decide
    · exact ih r h

lemma pad_short {row : Row} {n : Nat} (h : row.length ≤ n) :
    _pad_row row n = row ++ List.replicate (n - row.length) (Value.str "") := by
  unfold _pad_row
  by_cases hlt : row.length < n
  · rw [if_pos hlt]
    apply List.take_of_length_le
    simp only [List.length_append, List.length_replicate]
    omega
  · rw [if_neg hlt]
    have hn : row.length = n := by omega
    rw [List.take_of_length_le (by omega)]
    rw [show n - row.length = 0 from by omega]
    simp

lemma pad_long {row : Row} {n : Nat} (h : n ≤ row.length) :
    _pad_row row n = row.take n := by
  unfold _pad_row
  rw [if_neg (by omega)]

/-- C10: every historical data row entering the merge has been padded or
truncated to exactly the 8 header columns, every row of the final merged
output (data rows and separators alike) has exactly 8 cells, and `_pad_row`
pads short rows on the right with empty text and truncates long rows,
discarding every cell beyond the header width. -/
theorem row_width_invariant :
    (∀ ex : List Row, ∀ r ∈ existingDataRowsOf ex, r.length = 8)
      ∧ (∀ (ex : List Row) (rd : Value) (new : List Row),
          ∀ r ∈ pipelineFinalRows ex rd new, r.length = 8)
      ∧ (∀ (row : Row) (n : Nat),
          (_pad_row row n).length = n
            ∧ (row.length ≤ n →
                _pad_row row n = row ++ List.replicate (n - row.length) (Value.str ""))
            ∧ (n ≤ row.length → _pad_row row n = row.take n)) := by
  refine ⟨prepadded_len, ?_, ?_⟩
  · intro ex rd new r hr
    rw [show pipelineFinalRows ex rd new = mergeRows (existingDataRowsOf ex) rd new from rfl,
      mergeRows_eq_emit] at hr
    exact emitKeyed_len _ r hr
  · intro row n
    exact ⟨pad_length row n, fun h => pad_short h, fun h => pad_long h⟩

theorem row_width_invariant_witness :
    (emptyRow8 ∈ pipelineFinalRows [] (Value.str "D") [[Value.str "D"]]
        ∧ (emptyRow8 : Row).length = 8)
      ∧ (([Value.str "x", Value.str "y"] : Row).length ≤ 8
          ∧ _pad_row [Value.str "x", Value.str "y"] 8
              = [Value.str "x", Value.str "y"]
                  ++ List.replicate (8 - ([Value.str "x", Value.str "y"] : Row).length)
                      (Value.str ""))
      ∧ ((8 : Nat) ≤ ([Value.str "a", Value.str "b", Value.str "c", Value.str "d",
            Value.str "e", Value.str "f", Value.str "g", Value.str "h",
            Value.str "i"] : Row).length
          ∧ _pad_row [Value.str "a", Value.str "b", Value.str "c", Value.str "d",
              Value.str "e", Value.str "f", Value.str "g", Value.str "h", Value.str "i"] 8
            = ([Value.str "a", Value.str "b", Value.str "c", Value.str "d",
                Value.str "e", Value.str "f", Value.str "g", Value.str "h",
                Value.str "i"] : Row).take 8) :=
  ⟨⟨by decide,
    row_width_invariant.2.1 [] (Value.str "D") [[Value.str "D"]] emptyRow8 (by decide)⟩,
   ⟨by decide,
    (row_width_invariant.2.2 [Value.str "x", Value.str "y"] 8).2.1 (by decide)⟩,
   ⟨by decide,
    (row_width_invariant.2.2 [Value.str "a", Value.str "b", Value.str "c", Value.str "d",
        Value.str "e", Value.str "f", Value.str "g", Value.str "h", Value.str "i"] 8).2.2
      (by decide)⟩⟩

/-- C5 counterexample: a block opened by a continuation row (its key is the
empty string, which differs from the incoming row's key `"D"`) is not flushed
when the `"D"` row arrives; the splitter absorbs the continuation row into a
single block keyed `"D"`, where flush-then-start on any different key would
have produced two blocks. -/
theorem split_step_counterexample :
    _split_day_blocks [[Value.str "", Value.str "x"], [Value.str "D", Value.str "y"]]
        = [(Value.str "D", [[Value.str "", Value.str "x"], [Value.str "D", Value.str "y"]])]
      ∧ _split_day_blocks [[Value.str "", Value.str "x"], [Value.str "D", Value.str "y"]]
          ≠ [(Value.str "", [[Value.str "", Value.str "x"]]),
             (Value.str "D", [[Value.str "D", Value.str "y"]])] := by
  refine ⟨by decide, by decide⟩

/-- C5 (amended): a row with a non-empty date key starts a new block exactly
when a block is open under a different NON-EMPTY key (flush-then-start); when
the row's key matches the open key, when no block is open, and — in
particular — when the open block's key is the empty value, the row extends or
opens the current block with no flush, the block's key becoming the row's
key. -/
theorem split_step_cases (rest : List Row) (blocks : List (Value × List Row))
    (cur : List Row) (k : Value) (row : Row)
    (hrow : isEmptyRow row = false)
    (hd : isEmptyCell (row.headD (Value.str "")) = false) :
    (cur ≠ [] → isEmptyCell k = false → pyEq (row.headD (Value.str "")) k = false →
        splitGo (row :: rest) blocks cur k
          = splitGo rest (blocks ++ [(k, cur)]) [row] (row.headD (Value.str "")))
      ∧ (pyEq (row.headD (Value.str "")) k = true →
          splitGo (row :: rest) blocks cur k
            = splitGo rest blocks (cur ++ [row]) (row.headD (Value.str "")))
      ∧ (isEmptyCell k = true →
          splitGo (row :: rest) blocks cur k
            = splitGo rest blocks (cur ++ [row]) (row.headD (Value.str "")))
      ∧ (cur = [] →
          splitGo (row :: rest) blocks cur k
            = splitGo rest blocks [row] (row.headD (Value.str ""))) := by
  have hhd : (List.head? row).getD (Value.str "") = row.headD (Value.str "") := by
    cases row <;> rfl
  have hrow' : ¬ isEmptyRow row = true := by simp [hrow]
  have hd' : ¬ isEmptyCell (row.headD (Value.str "")) = true := by
    simp only [Bool.not_eq_true]
    exact hd
  refine ⟨fun hcur hk hne => ?_, fun heq => ?_, fun hk => ?_, fun hcur => ?_⟩
  · simp only [splitGo, hhd]
    rw [if_neg hrow', if_neg hd', if_pos ⟨hcur, hk, hne⟩]
  · simp only [splitGo, hhd]
    rw [if_neg hrow', if_neg hd',
      if_neg (show ¬ _ from fun hand => by rw [hand.2.2] at heq; exact Bool.noConfusion heq)]
  · simp only [splitGo, hhd]
    rw [if_neg hrow', if_neg hd',
      if_neg (show ¬ _ from fun hand => by rw [hand.2.1] at hk; exact Bool.noConfusion hk)]
  · subst hcur
    simp only [splitGo, hhd]
    rw [if_neg hrow', if_neg hd', if_neg (show ¬ _ from fun hand => hand.1 rfl)]
    rw [List.nil_append]

theorem split_step_cases_witness :
    splitGo [[Value.str "D", Value.str "y"]] [] [[Value.str "K", Value.str "a"]] (Value.str "K")
        = splitGo [] ([] ++ [(Value.str "K", [[Value.str "K", Value.str "a"]])])
            [[Value.str "D", Value.str "y"]]
            (([Value.str "D", Value.str "y"] : Row).headD (Value.str "")) :=
  (split_step_cases [] [] [[Value.str "K", Value.str "a"]] (Value.str "K")
      [Value.str "D", Value.str "y"] (by decide) (by decide)).1
    (by decide) (by decide) (by decide)

/-- C6: the sheet normalizer is a total function that either returns its
input unchanged or — exactly when the `"date"` header is detected at a
non-zero offset and every pre-offset cell of every row (header included) is
empty — left-truncates every row at that offset; whenever any pre-offset cell
is non-empty the rows come back completely unchanged. -/
theorem normalize_unchanged_or_shift (rows : List Row) (hs : List String) :
    (_normalize_existing_rows rows hs = rows
        ∨ ∃ k, 0 < k ∧ headerDateIndex rows = some k
            ∧ (∀ row ∈ rows, ∀ cell ∈ row.take k, isEmptyCell cell = true)
            ∧ _normalize_existing_rows rows hs = rows.map (fun r => r.drop k))
      ∧ (∀ k, headerDateIndex rows = some k → 0 < k →
          (∃ row ∈ rows, ∃ cell ∈ row.take k, isEmptyCell cell = false) →
          _normalize_existing_rows rows hs = rows) := by
  constructor
  · unfold _normalize_existing_rows
    cases hidx : headerDateIndex rows with
    | none => exact Or.inl rfl
    | some k =>
      dsimp only
      by_cases hk : k = 0
      · rw [if_pos hk]
        exact Or.inl rfl
      · rw [if_neg hk]
        by_cases hany :
            rows.any (fun row => (row.take k).any (fun cell => !isEmptyCell cell)) = true
        · rw [if_pos hany]
          exact Or.inl rfl
        · rw [if_neg hany]
          refine Or.inr ⟨k, by omega, rfl, ?_, rfl⟩
          intro row hrow cell hcell
          have h0 : rows.any (fun row => (row.take k).any (fun cell => !isEmptyCell cell))
              = false := by simpa using hany
          simp only [List.any_eq_false] at h0
          have h1 : (row.take k).any (fun cell => !isEmptyCell cell) = false := by
            simpa using h0 row hrow
          simp only [List.any_eq_false] at h1
          simpa using h1 cell hcell
  · intro k hidx hk hex
    unfold _normalize_existing_rows
    rw [hidx]
    dsimp only
    rw [if_neg (show ¬ k = 0 from by omega)]
    have hany : rows.any (fun row => (row.take k).any (fun cell => !isEmptyCell cell)) = true := by
      obtain ⟨row, hrow, cell, hcell, hc⟩ := hex
      simp only [List.any_eq_true]
      exact ⟨row, hrow, cell, hcell, by simp [hc]⟩
    rw [if_pos hany]

theorem normalize_unchanged_or_shift_witness :
    headerDateIndex [[Value.str "junk", Value.str "date"], [Value.str "z", Value.str "2024"]]
        = some 1
      ∧ 0 < 1
      ∧ (∃ row ∈ ([[Value.str "junk", Value.str "date"],
            [Value.str "z", Value.str "2024"]] : List Row),
          ∃ cell ∈ row.take 1, isEmptyCell cell = false)
      ∧ _normalize_existing_rows
            [[Value.str "junk", Value.str "date"], [Value.str "z", Value.str "2024"]] headers
          = [[Value.str "junk", Value.str "date"], [Value.str "z", Value.str "2024"]] :=
  ⟨by decide, by decide, by decide,
   (normalize_unchanged_or_shift
       [[Value.str "junk", Value.str "date"], [Value.str "z", Value.str "2024"]] headers).2
     1 (by decide) (by decide) (by decide)⟩

/-- C7 counterexample: two writes of the same logical rows under different
clock readings produce different container artifacts, because
`zipfile.ZipFile.writestr` stamps the current local time into every archive
member header. -/
theorem write_xlsx_counterexample :
    _write_xlsx headersRow [] 0 ≠ _write_xlsx headersRow [] 1 := by
  intro h
  have h2 := congrArg (fun l => ((l.headD ("", "", 0)).2.2 : Nat)) h
  simp [_write_xlsx] at h2

/-- C7 (amended): the writer is deterministic in everything except the
clock: writing the same header and rows twice yields identical member names
and identical member contents (no timestamps, random identifiers or
nondeterministic ordering occur in any part's content), but each archive
member also carries the write-time date stamp, so whole artifacts are
byte-identical exactly when the two writes read the same clock value. -/
theorem write_xlsx_deterministic (hdrs : Row) (rows : List Row) (t1 t2 : Nat) :
    ((_write_xlsx hdrs rows t1).map (fun m => (m.1, m.2.1))
        = (_write_xlsx hdrs rows t2).map (fun m => (m.1, m.2.1)))
      ∧ (_write_xlsx hdrs rows t1 = _write_xlsx hdrs rows t2 ↔ t1 = t2) := by
  refine ⟨rfl, ?_, fun h => by rw [h]⟩
  intro h
  have h2 := congrArg (fun l => ((l.headD ("", "", 0)).2.2 : Nat)) h
  simpa [_write_xlsx] using h2

theorem write_xlsx_deterministic_witness :
    ((_write_xlsx headersRow [] 5).map (fun m => (m.1, m.2.1))
        = (_write_xlsx headersRow [] 9).map (fun m => (m.1, m.2.1)))
      ∧ (_write_xlsx headersRow [] 7 = _write_xlsx headersRow [] 7 ↔ (7 : Nat) = 7) :=
  ⟨(write_xlsx_deterministic headersRow [] 5 9).1,
   (write_xlsx_deterministic headersRow [] 7 7).2⟩

lemma pyEq_str_false {a b : String} (h : a ≠ b) :
    pyEq (Value.str a) (Value.str b) = false := by
  simp [pyEq, h]

lemma splitGo_block_run (k : String) (hk : k ≠ "") :
    ∀ (rs tailRows : List Row) (blocks : List (Value × List Row)) (cur : List Row),
    cur ≠ [] →
    (∀ r ∈ rs, ∃ tl, r = Value.str k :: tl) →
    splitGo (rs ++ emptyRow8 :: tailRows) blocks cur (Value.str k)
      = splitGo tailRows (blocks ++ [(Value.str k, cur ++ rs)]) [] Value.none := by
  intro rs
  induction rs with
  | nil =>
    intro tailRows blocks cur hcur _
    simp only [List.nil_append, splitGo]
    rw [if_pos (show isEmptyRow emptyRow8 = true from by decide)]
    rw [if_neg hcur]
    rw [List.append_nil]
  | cons r rs' ih =>
    intro tailRows blocks cur hcur hrs
    obtain ⟨tl, htl⟩ := hrs r (List.mem_cons_self r rs')
    rw [htl]
    simp only [List.cons_append, splitGo, List.head?_cons, Option.getD_some, List.headD_cons,
      List.append_eq]
    rw [if_neg (show ¬ isEmptyRow (Value.str k :: tl) = true from by
      simp [isEmptyRow, isEmptyCell, hk])]
    rw [if_neg (show ¬ isEmptyCell (Value.str k) = true from by simp [isEmptyCell, hk])]
    rw [if_neg (show ¬ _ from fun hand => by
      have hr := hand.2.2
      rw [pyEq_refl] at hr
      exact Bool.noConfusion hr)]
    rw [ih tailRows blocks (cur ++ [Value.str k :: tl]) (by simp)
      (fun q hq => hrs q (List.mem_cons_of_mem _ hq))]
    rw [List.append_assoc, List.singleton_append]

lemma split_joinBlocks : ∀ (hist : List (String × List Row))
    (blocks : List (Value × List Row)),
    (∀ p ∈ hist, p.1 ≠ "" ∧ p.2 ≠ [] ∧ ∀ r ∈ p.2, ∃ tl, r = Value.str p.1 :: tl) →
    splitGo (joinBlocks hist) blocks [] Value.none
      = blocks ++ hist.map (fun p => (Value.str p.1, p.2)) := by
  intro hist
  induction hist with
  | nil =>
    intro blocks _
    simp [joinBlocks, splitGo]
  | cons p rest ih =>
    intro blocks h
    obtain ⟨hk, hne, hrows⟩ := h p (List.mem_cons_self p rest)
    obtain ⟨r0, rs', hr0⟩ := List.exists_cons_of_ne_nil hne
    obtain ⟨tl0, htl0⟩ := hrows r0 (by rw [hr0]; exact List.mem_cons_self _ _)
    have hjoin : joinBlocks (p :: rest) = p.2 ++ emptyRow8 :: joinBlocks rest := by
      simp [joinBlocks]
    rw [hjoin, hr0, htl0]
    rw [List.cons_append]
    simp only [splitGo, List.head?_cons, Option.getD_some, List.headD_cons]
    rw [if_neg (show ¬ isEmptyRow (Value.str p.1 :: tl0) = true from by
      simp [isEmptyRow, isEmptyCell, hk])]
    rw [if_neg (show ¬ isEmptyCell (Value.str p.1) = true from by simp [isEmptyCell, hk])]
    rw [if_neg (show ¬ _ from fun hand => hand.1 rfl)]
    rw [List.nil_append]
    rw [splitGo_block_run p.1 hk rs' (joinBlocks rest) blocks [Value.str p.1 :: tl0]
      (by simp) (fun q hq => by
        have hq' : q ∈ p.2 := by rw [hr0]; exact List.mem_cons_of_mem _ hq
        exact hrows q hq')]
    rw [List.singleton_append]
    rw [ih (blocks ++ [(Value.str p.1, (Value.str p.1 :: tl0) :: rs')])
      (fun q hq => h q (List.mem_cons_of_mem _ hq))]
    simp only [List.map_cons, List.append_assoc, List.singleton_append]
    rw [← htl0]
    rw [← hr0]

lemma dedupFold_id : ∀ (l acc : List (Value × List Row)),
    (∀ a ∈ acc, ∀ b ∈ l, pyEq a.1 b.1 = false) →
    l.Pairwise (fun a b => pyEq a.1 b.1 = false) →
    dedupFold l acc = acc ++ l := by
  intro l
  induction l with
  | nil => intro acc _ _; simp [dedupFold]
  | cons b bs ih =>
    intro acc hcross hpw
    simp only [dedupFold]
    have hc : containsKey acc b.1 = false := by
      simp only [containsKey, List.any_eq_false]
      intro a ha
      simp [hcross a ha b (List.mem_cons_self _ _)]
    rw [if_neg (by simp [hc])]
    rw [ih (acc ++ [b]) ?cross (List.pairwise_cons.mp hpw).2]
    · simp
    case cross =>
      intro a ha b' hb'
      rcases List.mem_append.mp ha with h | h
      · exact hcross a h b' (List.mem_cons_of_mem _ hb')
      · simp only [List.mem_singleton] at h
        subst h
        exact (List.pairwise_cons.mp hpw).1 b' hb'

lemma googleKeepLoop_all (rd : Value) : ∀ l : List Row,
    (∀ r ∈ l, r ≠ [] → pyEq (r.headD Value.none) rd = false) →
    googleKeepLoop rd l false = l := by
  intro l
  induction l with
  | nil => intro _; rfl
  | cons row rest ih =>
    intro h
    simp only [googleKeepLoop]
    rw [if_neg (show ¬ _ from fun hand => by
      have hf := h row (List.mem_cons_self _ _) hand.1
      rw [hf] at hand
      exact Bool.noConfusion hand.2)]
    simp only [ite_self]
    rw [if_neg (show ¬ false = true from Bool.noConfusion)]
    rw [ih (fun r hr => h r (List.mem_cons_of_mem _ hr))]

lemma filter_all_nonempty {l : List Row} (h : ∀ r ∈ l, isEmptyRow r = false) :
    l.filter (fun r => !isEmptyRow r) = l := by
  rw [List.filter_eq_self]
  intro r hr
  simp [h r hr]

lemma filter_joinBlocks (hist : List (String × List Row))
    (h : ∀ p ∈ hist, ∀ r ∈ p.2, isEmptyRow r = false) :
    (joinBlocks hist).filter (fun r => !isEmptyRow r)
      = (hist.map (fun p => p.2)).flatten := by
  induction hist with
  | nil => rfl
  | cons p rest ih =>
    have hjoin : joinBlocks (p :: rest) = p.2 ++ emptyRow8 :: joinBlocks rest := by
      simp [joinBlocks]
    rw [hjoin, List.filter_append, List.filter_cons]
    rw [if_neg (show ¬ (!isEmptyRow emptyRow8) = true from by decide)]
    rw [filter_all_nonempty (h p (List.mem_cons_self _ _))]
    rw [ih (fun q hq => h q (List.mem_cons_of_mem _ hq))]
    simp

lemma emitKeyed_append : ∀ a b : List (Value × List Row),
    emitKeyed (a ++ b) = emitKeyed a ++ emitKeyed b := by
  intro a b
  induction a with
  | nil => rfl
  | cons p rest ih => simp [emitKeyed, ih, List.append_assoc]

lemma emitKeyed_blocks (hist : List (String × List Row))
    (h : ∀ p ∈ hist, p.1 ≠ "" ∧ ∀ r ∈ p.2, r.length = 8 ∧ ∃ tl, r = Value.str p.1 :: tl) :
    emitKeyed (hist.map (fun p => (Value.str p.1, p.2))) = joinBlocks hist := by
  induction hist with
  | nil => rfl
  | cons p rest ih =>
    obtain ⟨hk, hrows⟩ := h p (List.mem_cons_self _ _)
    simp only [List.map_cons, emitKeyed, emitBlockOf]
    rw [ensure_pad_id (k := Value.str p.1) (by simp [isEmptyCell, hk]) p.2 ?rows]
    · rw [ih (fun q hq => h q (List.mem_cons_of_mem _ hq))]
      simp [joinBlocks]
    case rows =>
      intro r hr
      obtain ⟨hlen, tl, htl⟩ := hrows r hr
      subst htl
      exact ⟨rfl, hlen⟩

lemma map_pad_id {l : List Row} (h : ∀ r ∈ l, r.length = 8) :
    l.map (fun r => _pad_row r 8) = l := by
  induction l with
  | nil => rfl
  | cons r rest ih =>
    rw [List.map_cons, pad_eq_self (h r (List.mem_cons_self _ _)),
      ih (fun q hq => h q (List.mem_cons_of_mem _ hq))]

lemma joinBlocks_len (hist : List (String × List Row))
    (h : ∀ p ∈ hist, ∀ r ∈ p.2, r.length = 8) :
    ∀ r ∈ joinBlocks hist, r.length = 8 := by
  intro r hr
  unfold joinBlocks at hr
  obtain ⟨l, hl, hrl⟩ := List.mem_flatten.mp hr
  obtain ⟨p, hp, rfl⟩ := List.mem_map.mp hl
  rcases List.mem_append.mp hrl with h' | h'
  · exact h p hp r h'
  · simp only [List.mem_singleton] at h'
    subst h'
    decide

lemma headerDateIndex_headersRow (xs : List Row) :
    headerDateIndex (headersRow :: xs) = some 0 := rfl

lemma normalize_headers (xs : List Row) :
    _normalize_existing_rows (headersRow :: xs) headers = headersRow :: xs := by
  unfold _normalize_existing_rows
  rw [headerDateIndex_headersRow]
  dsimp only
  rw [if_pos rfl]

lemma existingDataRowsOf_wf (body : List Row) (hlen : ∀ r ∈ body, r.length = 8) :
    existingDataRowsOf (headersRow :: body) = body := by
  unfold existingDataRowsOf
  rw [normalize_headers]
  dsimp only
  rw [if_pos (show _is_header_row headersRow headers = true from by decide)]
  exact map_pad_id hlen

/-- C9 counterexample: with identical read results and identical new-block
rows, the two merge implementations produce different final row sequences:
the container variant replaces the run-date block in place and terminates it
with a separator, while the remote-spreadsheet variant appends today's rows
at the end with no trailing separator. -/
theorem google_container_counterexample :
    googleMain [headersRow, _pad_row [Value.str "D", Value.str "x"] 8, emptyRow8]
        (Value.str "D") [_pad_row [Value.str "D", Value.str "z"] 8]
      ≠ containerDocumentRows [headersRow, _pad_row [Value.str "D", Value.str "x"] 8, emptyRow8]
          (Value.str "D") [_pad_row [Value.str "D", Value.str "z"] 8] := by
  decide

/-- C9 (amended): the two variants are not drop-in equivalent on full row
sequences, but they agree on the data rows: given equal read results that
form a well-formed document body (header, then distinct-keyed 8-wide blocks
each ending in one separator) and a fresh run date, filtering out the blank
separator rows yields exactly the same row sequence from the remote
variant's merge and from the container variant's merge. -/
theorem google_container_data_rows_agree (hist : List (String × List Row)) (d : String)
    (today : List Row)
    (hd : d ≠ "")
    (hdistinct : (hist.map Prod.fst).Pairwise (fun a b => a ≠ b))
    (hnotin : ∀ p ∈ hist, p.1 ≠ d)
    (hblocks : ∀ p ∈ hist, p.1 ≠ "" ∧ p.2 ≠ []
        ∧ ∀ r ∈ p.2, r.length = 8 ∧ ∃ tl, r = Value.str p.1 :: tl)
    (htoday : ∀ r ∈ today, r.length = 8 ∧ ∃ tl, r = Value.str d :: tl) :
    (googleMain (headersRow :: joinBlocks hist) (Value.str d) today).filter
        (fun r => !isEmptyRow r)
      = (containerDocumentRows (headersRow :: joinBlocks hist) (Value.str d) today).filter
          (fun r => !isEmptyRow r) := by
  have hlen8 : ∀ r ∈ joinBlocks hist, r.length = 8 :=
    joinBlocks_len hist (fun p hp r hr => ((hblocks p hp).2.2 r hr).1)
  have hblockNE : ∀ p ∈ hist, ∀ r ∈ p.2, isEmptyRow r = false := by
    intro p hp r hr
    obtain ⟨_, tl, htl⟩ := (hblocks p hp).2.2 r hr
    subst htl
    exact isEmptyRow_cons_false (by simp [isEmptyCell, (hblocks p hp).1])
  have htodayNE : ∀ r ∈ today, isEmptyRow r = false := by
    intro r hr
    obtain ⟨_, tl, htl⟩ := htoday r hr
    subst htl
    exact isEmptyRow_cons_false (by simp [isEmptyCell, hd])
  have hFjoin := filter_joinBlocks hist hblockNE
  have hFtoday := filter_all_nonempty htodayNE
  have hHfilter : (!isEmptyRow headersRow) = true := by decide
  have hcont : containerDocumentRows (headersRow :: joinBlocks hist) (Value.str d) today
      = headersRow :: (joinBlocks hist ++ (today ++ [emptyRow8])) := by
    unfold containerDocumentRows pipelineFinalRows
    rw [existingDataRowsOf_wf (joinBlocks hist) hlen8]
    rw [mergeRows_eq_emit]
    have hsplit : _split_day_blocks (joinBlocks hist)
        = hist.map (fun p => (Value.str p.1, p.2)) := by
      unfold _split_day_blocks
      have hs := split_joinBlocks hist []
        (fun p hp => ⟨(hblocks p hp).1, (hblocks p hp).2.1,
          fun r hr => ((hblocks p hp).2.2 r hr).2⟩)
      simpa using hs
    rw [hsplit]
    have hpw : (hist.map (fun p => (Value.str p.1, p.2))).Pairwise
        (fun a b => pyEq a.1 b.1 = false) := by
      rw [List.pairwise_map]
      have h2 : hist.Pairwise (fun a b => a.1 ≠ b.1) := List.pairwise_map.mp hdistinct
      exact h2.imp (fun hab => pyEq_str_false hab)
    rw [dedupFold_id _ [] (by simp) hpw]
    unfold upsertKeyed
    rw [if_neg ?notin]
    case notin =>
      intro hcontains
      simp only [containsKey, List.any_eq_true] at hcontains
      obtain ⟨q, hq, hpe⟩ := hcontains
      obtain ⟨p, hp, rfl⟩ := List.mem_map.mp hq
      rw [pyEq_str_false (hnotin p hp)] at hpe
      exact Bool.noConfusion hpe
    rw [List.nil_append, emitKeyed_append]
    rw [emitKeyed_blocks hist (fun p hp => ⟨(hblocks p hp).1, (hblocks p hp).2.2⟩)]
    have htt : emitKeyed [(Value.str d, today)] = today ++ [emptyRow8] := by
      simp only [emitKeyed, emitBlockOf, List.append_nil]
      rw [ensure_pad_id (k := Value.str d) (by simp [isEmptyCell, hd]) today ?tr]
      case tr =>
        intro r hr
        obtain ⟨hlen, tl, htl⟩ := htoday r hr
        subst htl
        exact ⟨rfl, hlen⟩
    rw [htt]
  have hkeep : googleKeepLoop (Value.str d) (joinBlocks hist) false = joinBlocks hist := by
    apply googleKeepLoop_all
    intro r hr _
    unfold joinBlocks at hr
    obtain ⟨l, hl, hrl⟩ := List.mem_flatten.mp hr
    obtain ⟨p, hp, rfl⟩ := List.mem_map.mp hl
    rcases List.mem_append.mp hrl with h' | h'
    · obtain ⟨_, tl, htl⟩ := (hblocks p hp).2.2 r h'
      subst htl
      simp only [List.headD_cons]
      exact pyEq_str_false (hnotin p hp)
    · simp only [List.mem_singleton] at h'
      subst h'
      rw [show (emptyRow8 : Row).headD Value.none = Value.str "" from rfl]
      exact pyEq_str_false (fun hcontra => hd hcontra.symm)
  have hgoog : googleMain (headersRow :: joinBlocks hist) (Value.str d) today
      = ((headersRow :: joinBlocks hist)
          ++ (if joinBlocks hist = [] then [] else [emptyRow8])) ++ today := by
    have h1 : (if (headersRow :: joinBlocks hist) = ([] : List Row) then [headersRow]
        else headersRow :: joinBlocks hist) = headersRow :: joinBlocks hist :=
      if_neg (by simp)
    have h2 : (headersRow :: joinBlocks hist).drop 1 = joinBlocks hist := rfl
    simp only [googleMain, h1, h2, hkeep]
    by_cases hj : joinBlocks hist = []
    · rw [hj]
      simp
    · have hlt : 1 < (headersRow :: joinBlocks hist).length := by
        cases hjoin : joinBlocks hist with
        | nil => exact absurd hjoin hj
        | cons a l => simp
      rw [if_pos hlt, if_neg hj]
  rw [hgoog, hcont]
  rw [List.filter_append, List.filter_append]
  rw [List.filter_cons, if_pos hHfilter]
  rw [hFjoin, hFtoday]
  have hsep : (if joinBlocks hist = [] then ([] : List Row) else [emptyRow8]).filter
      (fun r => !isEmptyRow r) = [] := by
    by_cases hj : joinBlocks hist = []
    · rw [if_pos hj]
      rfl
    · rw [if_neg hj]
      decide
  rw [hsep]
  rw [List.filter_cons, if_pos hHfilter, List.filter_append, List.filter_append, hFjoin,
    hFtoday]
  rw [show ([emptyRow8] : List Row).filter (fun r => !isEmptyRow r) = [] from by decide]
  simp

theorem google_container_data_rows_agree_witness :
    (googleMain
        (headersRow
          :: joinBlocks [("E", [Value.str "E" :: List.replicate 7 (Value.str "x")])])
        (Value.str "D") [Value.str "D" :: List.replicate 7 (Value.str "y")]).filter
        (fun r => !isEmptyRow r)
      = (containerDocumentRows
          (headersRow
            :: joinBlocks [("E", [Value.str "E" :: List.replicate 7 (Value.str "x")])])
          (Value.str "D") [Value.str "D" :: List.replicate 7 (Value.str "y")]).filter
          (fun r => !isEmptyRow r) :=
  google_container_data_rows_agree
    [("E", [Value.str "E" :: List.replicate 7 (Value.str "x")])] "D"
    [Value.str "D" :: List.replicate 7 (Value.str "y")]
    (by decide)
    (List.pairwise_singleton _ _)
    (by decide)
    (by
      intro p hp
      simp only [List.mem_singleton] at hp
      subst hp
      refine ⟨by decide, by decide, ?_⟩
      intro r hr
      simp only [List.mem_singleton] at hr
      subst hr
      exact ⟨by decide, List.replicate 7 (Value.str "x"), rfl⟩)
    (by
      intro r hr
      simp only [List.mem_singleton] at hr
      subst hr
      exact ⟨by decide, List.replicate 7 (Value.str "y"), rfl⟩)
